import Mathlib

/-!
# inits: service discovery, ordering and orchestration

A shallow embedding of `src/service.c` and of the orchestration loop of `src/main.c`.

Conventions of the embedding:

* a C string is the list of its characters before the terminating NUL, so the end of
  the list plays the role of `'\0'`;
* a `char *` into a string is the suffix of the string that starts at the pointed
  character; two pointers into the same string are equal exactly when the suffixes have
  the same length, and their difference is the difference of the lengths;
* `isdigit` and `isalpha` are the C-locale classifications (`Char.isDigit`,
  `Char.isAlpha`: ASCII digits and ASCII letters);
* out-parameters are passed in and returned (state passing);
* what the operating system and the C library decide (directory contents, allocation,
  `fork`, `waitpid`, `kill`, signal delivery, `qsort`) is a parameter.
-/

namespace Inits

/-! ## Data model (`include/service.h`) -/

/-- Information about a single service script (`service_info_t`). -/
structure service_info_t where
  /-- `char filename[256]` -/
  filename : List Char
  /-- `char name[256]` -/
  name : List Char
  /-- `char ordering_prefix[64]` -/
  ordering_prefix : List Char
  /-- `int runlevel` -/
  runlevel : Int
  /-- `char full_path[512]` -/
  full_path : List Char
deriving DecidableEq, Repr

/-- List of service scripts (`service_list_t`). The field `count` of the C structure is
the length of `services`: the array holds `count` initialised elements. -/
structure service_list_t where
  /-- the `count` initialised elements of the dynamic array -/
  services : List service_info_t
  /-- allocated capacity -/
  capacity : Nat
deriving DecidableEq, Repr

/-- The `count` field of `service_list_t`. -/
def service_list_t.count (l : service_list_t) : Nat := l.services.length

/-- `#define INITS_DIR "/etc/inits.d"` -/
def INITS_DIR : List Char := "/etc/inits.d".toList

/-- `#define INITIAL_CAPACITY 16` -/
def INITIAL_CAPACITY : Nat := 16

/-! ## C library string functions -/

/-- The string left in `dst` by `strncpy(dst, src, n); dst[n] = '\0';`: the first `n`
characters of `src` (all of `src` when it is shorter). -/
def strncpy (src : List Char) (n : Nat) : List Char := src.take n

/-- The C function `strcmp`, `while (*a && *a == *b) { a++; b++; } return *a - *b;`: the
difference of the first pair of differing characters, the end of a string counting as
the NUL character. -/
def strcmp : List Char → List Char → Int
  | [], [] => 0
  | [], b :: _ => 0 - (b.toNat : Int)
  | a :: _, [] => (a.toNat : Int)
  | a :: as, b :: bs =>
    if a.toNat ≠ 0 ∧ a = b then strcmp as bs else (a.toNat : Int) - (b.toNat : Int)

/-! ## Filename parser (`parse_service_filename`, service.c 78-147) -/

/-- The inner loop, lines 92-94: `while (*p != '\0' && *p != '-' && isalpha(*p)) p++;`.
Returns `p` after the loop. -/
def skip_alpha : List Char → List Char
  | [] => []
  | c :: cs => if c ≠ '-' ∧ c.isAlpha = true then skip_alpha cs else c :: cs

/-- The expression `*p - '0'` of line 87: the runlevel a digit character encodes. -/
def digitValue (c : Char) : Int := (c.toNat : Int) - ('0'.toNat : Int)

/-- How the scanning loop of lines 84-115 is left. -/
inductive LoopExit where
  /-- a `return v;` inside the loop -/
  | ret (v : Int)
  /-- the loop condition failed: `p`, `found_runlevel` and the local buffer
  `ordering_prefix` at that point -/
  | done (p : List Char) (found_runlevel : Int) ( ordering_prefix : List Char)
deriving DecidableEq, Repr

/-- The outer loop, lines 84-115, started at `p` with the given values of the locals
`found_runlevel` and `ordering_prefix`. -/
def parse_loop (runlevel : Int) (p : List Char) (found_runlevel : Int)
    ( ordering_prefix : List Char) : LoopExit :=
  match p with
  | [] => .done [] found_runlevel ordering_prefix
  | c :: cs =>
    if c = '-' then .done (c :: cs) found_runlevel ordering_prefix
    else if c.isDigit = true then
      let current_runlevel : Int := digitValue c
      let prefix_start := cs
      let p1 := skip_alpha cs
      if p1.length = prefix_start.length then .ret (-1)
      else if current_runlevel = runlevel then
        let prefix_len := prefix_start.length - p1.length
        let prefix_len := if prefix_len ≥ 64 then 64 - 1 else prefix_len
        parse_loop runlevel p1 1 (strncpy prefix_start prefix_len)
      else parse_loop runlevel p1 found_runlevel ordering_prefix
    else .ret (-1)
termination_by p.length
decreasing_by
  all_goals simp_wf
  all_goals
    have shorter : ∀ q : List Char, (skip_alpha q).length ≤ q.length := by
      intro q
      induction q with
      | nil => simp [skip_alpha]
      | cons d ds ih =>
        simp only [skip_alpha]
        split
        · simp only [List.length_cons]; omega
        · exact Nat.le_refl _
    have := shorter cs
    omega

/-- `snprintf(info->full_path, sizeof(info->full_path), "%s/%s", INITS_DIR, filename)` -/
def full_path_of (filename : List Char) : List Char :=
  (INITS_DIR ++ '/' :: filename).take (512 - 1)

/-- `parse_service_filename(filename, runlevel, info)`: the returned `int` and the
content of `*info` afterwards. -/
def parse_service_filename (filename : List Char) (runlevel : Int) (info : service_info_t) :
    Int × service_info_t :=
  match parse_loop runlevel filename 0 [] with
  | .ret v => (v, info)
  | .done p found_runlevel ordering_prefix =>
    match p with
    | [] => (-1, info)
    | c :: p1 =>
      if c ≠ '-' then (-1, info)
      else
        match p1 with
        | [] => (-1, info)
        | _ :: _ =>
          if found_runlevel ≠ 0 then
            (1, { filename := strncpy filename (256 - 1)
                  name := strncpy p1 (256 - 1)
                  ordering_prefix := strncpy ordering_prefix (64 - 1)
                  runlevel := runlevel
                  full_path := full_path_of filename })
          else (0, info)

/-- A `service_info_t` with every buffer empty, for the content of `*info` before a call
in the examples below. -/
def blank_info : service_info_t :=
  { filename := [], name := [], ordering_prefix := [], runlevel := 0, full_path := [] }

/-! ## The filename grammar, as the specification words it -/

/-- One `<digit><alpha>+` pair of a filename: the digit and the run after it. -/
abbrev Group := Char × List Char

/-- A pair is well formed: a decimal digit, then one or more alphabetic characters. -/
def Group.valid (g : Group) : Bool :=
  g.1.isDigit && !g.2.isEmpty && g.2.all Char.isAlpha

/-- The text of a sequence of pairs. -/
def encodeGroups : List Group → List Char
  | [] => []
  | g :: gs => g.1 :: (g.2 ++ encodeGroups gs)

/-- The filename grammar of the specification, `(<digit><alpha>+)+ '-' <name>`: one or
more pairs, the separator, a non-empty remainder. -/
def MatchesGrammar (filename : List Char) : Prop :=
  ∃ (gs : List Group) (name : List Char), gs ≠ [] ∧ (∀ g ∈ gs, g.valid = true) ∧ name ≠ [] ∧
    filename = encodeGroups gs ++ '-' :: name

/-- The same grammar with zero or more pairs, `(<digit><alpha>+)* '-' <name>`. -/
def MatchesGrammarStar (filename : List Char) : Prop :=
  ∃ (gs : List Group) (name : List Char), (∀ g ∈ gs, g.valid = true) ∧ name ≠ [] ∧
    filename = encodeGroups gs ++ '-' :: name

/-- What a left-to-right pass over the pairs leaves in `found_runlevel` and in the local
buffer: every pair whose digit is the target runlevel overwrites both. -/
def scanGroups (runlevel : Int) : List Group → Int × List Char → Int × List Char
  | [], st => st
  | g :: gs, st =>
    scanGroups runlevel gs (if digitValue g.1 = runlevel then (1, g.2.take 63) else st)

/-! ## Service catalog (`discover_services`, `sort_services`, service.c 41-71, 152-230)

The `log_message` calls of these functions do not influence their results and are left
out. A `NULL` array pointer is the empty list. -/

/-- What the environment decides during discovery. -/
structure DiscoverEnv where
  /-- `malloc(INITIAL_CAPACITY * sizeof(service_info_t))` returns a non-`NULL` pointer -/
  malloc_ok : Bool
  /-- `realloc` of the array to the given capacity returns a non-`NULL` pointer -/
  realloc_ok : Nat → Bool
  /-- `opendir(INITS_DIR)`: `none` when it returns `NULL`, otherwise the `d_name` of the
  entries that the successive `readdir` calls return -/
  opendir : Option (List (List Char))
  /-- the indeterminate initial content of the local `service_info_t info` -/
  info0 : service_info_t

/-- `init_service_list(services)`, lines 41-50. -/
def init_service_list (env : DiscoverEnv) (services : service_list_t) : Int × service_list_t :=
  if env.malloc_ok = false then (-1, { services with services := [] })
  else (0, { services := [], capacity := INITIAL_CAPACITY })

/-- `add_service(services, service)`, lines 55-71. -/
def add_service (env : DiscoverEnv) (services : service_list_t) (service : service_info_t) :
    Int × service_list_t :=
  if services.count ≥ services.capacity then
    let new_capacity := services.capacity * 2
    if env.realloc_ok new_capacity = false then (-1, services)
    else (0, { services := services.services ++ [service], capacity := new_capacity })
  else (0, { services with services := services.services ++ [service] })

/-- `free_service_list(services)`, lines 235-242. -/
def free_service_list (_services : service_list_t) : service_list_t :=
  { services := [], capacity := 0 }

/-- `service_comparator`, lines 152-157: the comparator handed to `qsort`. -/
def service_comparator (a b : service_info_t) : Int :=
  strcmp a.ordering_prefix b.ordering_prefix

/-- The C library function `qsort`, as a function of the array and of the comparator. -/
abbrev Qsort := List service_info_t → (service_info_t → service_info_t → Int) →
  List service_info_t

/-- A comparator is consistent: any two elements are comparable, and `≤` composes. -/
def ConsistentComparator (cmp : service_info_t → service_info_t → Int) : Prop :=
  (∀ a b, cmp a b ≤ 0 ∨ cmp b a ≤ 0) ∧ (∀ a b c, cmp a b ≤ 0 → cmp b c ≤ 0 → cmp a c ≤ 0)

/-- What the C standard promises of `qsort`: the array is rearranged, and with a
consistent comparator it ends in ascending order. The order of elements that compare
equal is unspecified. -/
def QsortContract (qsort : Qsort) : Prop :=
  ∀ (cmp : service_info_t → service_info_t → Int) (l : List service_info_t),
    (qsort l cmp).Perm l ∧
      (ConsistentComparator cmp → (qsort l cmp).Pairwise (fun a b => cmp a b ≤ 0))

/-- `sort_services(services)`, lines 162-167. -/
def sort_services (qsort : Qsort) (services : service_list_t) : service_list_t :=
  if services.count > 1 then
    { services with services := qsort services.services service_comparator }
  else services

/-- The `while ((entry = readdir(dir)) != NULL)` loop, lines 193-219, over the remaining
entries. Returns `-1` with the list freed when `add_service` fails (lines 207-211),
otherwise `0` when `readdir` returns `NULL`. -/
def scan_directory (env : DiscoverEnv) (runlevel : Int) :
    List (List Char) → service_list_t → Int × service_list_t
  | [], services => (0, services)
  | d_name :: rest, services =>
    if strcmp d_name ".".toList = 0 ∨ strcmp d_name "..".toList = 0 then
      scan_directory env runlevel rest services
    else
      let parsed := parse_service_filename d_name runlevel env.info0
      if parsed.1 = 1 then
        let added := add_service env services parsed.2
        if added.1 < 0 then (-1, free_service_list added.2)
        else scan_directory env runlevel rest added.2
      else scan_directory env runlevel rest services

/-- `discover_services(runlevel, services)`, lines 174-230. -/
def discover_services (env : DiscoverEnv) (qsort : Qsort) (runlevel : Int)
    (services : service_list_t) : Int × service_list_t :=
  let inited := init_service_list env services
  if inited.1 < 0 then (-1, inited.2)
  else
    match env.opendir with
    | none => (-1, { inited.2 with services := [] })
    | some entries =>
      let scanned := scan_directory env runlevel entries inited.2
      if scanned.1 < 0 then (-1, scanned.2)
      else (0, sort_services qsort scanned.2)

/-- The entries a catalog has to hold, in directory order: those other than `.` and `..`
on which the parser returns 1, each as the parser fills it in. -/
def matchedEntries (runlevel : Int) (entries : List (List Char)) : List service_info_t :=
  (entries.filter (fun d => decide (d ≠ ".".toList ∧ d ≠ "..".toList))).filterMap
    (fun d =>
      if (parse_service_filename d runlevel blank_info).1 = 1 then
        some (parse_service_filename d runlevel blank_info).2
      else none)

/-- A directory entry name is a C string: it holds no NUL character. -/
def IsCString (s : List Char) : Prop := ∀ c ∈ s, c.toNat ≠ 0

/-- Ascending order of the ordering keys under `strcmp`. -/
def KeysAscending (l : List service_info_t) : Prop :=
  l.Pairwise (fun a b => strcmp a.ordering_prefix b.ordering_prefix ≤ 0)

/-- A conforming `qsort` that keeps elements that compare equal in their order:
insertion sort. -/
def insertion_qsort : Qsort :=
  fun l cmp => l.insertionSort (fun a b => cmp a b ≤ 0)

/-- Another conforming `qsort`, which reverses elements that compare equal: insertion
sort of the array read backwards. -/
def backwards_qsort : Qsort :=
  fun l cmp => l.reverse.insertionSort (fun a b => cmp a b ≤ 0)

/-- A `qsort` is stable: under a consistent comparator, the elements that compare equal
to any given element keep their relative order. -/
def StableQsort (qsort : Qsort) : Prop :=
  ∀ (cmp : service_info_t → service_info_t → Int) (l : List service_info_t),
    ConsistentComparator cmp → ∀ a : service_info_t,
      (qsort l cmp).filter (fun b => decide (cmp a b ≤ 0 ∧ cmp b a ≤ 0)) =
        l.filter (fun b => decide (cmp a b ≤ 0 ∧ cmp b a ≤ 0))

/-- The entries of a catalog whose ordering prefix is `key`, in their order. -/
def entriesWithKey (key : List Char) (l : List service_info_t) : List service_info_t :=
  l.filter (fun b => decide (b.ordering_prefix = key))

/-- The search of glibc's `_quicksort` (stdlib/qsort.c, last phase) for the smallest
element of the first threshold,
`for (run_ptr = tmp_ptr + size; run_ptr <= thresh; run_ptr += size)
   if (cmp (run_ptr, tmp_ptr) < 0) tmp_ptr = run_ptr;`:
the index `tmp` of the first smallest element, given the smallest so far, its index, the
index `run` and the elements from `run` on. -/
def smallest_in_threshold (cmp : service_info_t → service_info_t → Int) :
    service_info_t → Nat → Nat → List service_info_t → Nat
  | _, tmp, _, [] => tmp
  | smallest, tmp, run, x :: rest =>
    if cmp x smallest < 0 then smallest_in_threshold cmp x run (run + 1) rest
    else smallest_in_threshold cmp smallest tmp (run + 1) rest

/-- `if (tmp_ptr != base_ptr) SWAP (tmp_ptr, base_ptr, size);` -/
def swap_with_first (l : List service_info_t) (tmp : Nat) : List service_info_t :=
  match l, l[tmp]? with
  | first :: rest, some x => if tmp = 0 then l else x :: rest.set (tmp - 1) first
  | _, _ => l

/-- One step of the insertion loop of `_quicksort`,
`tmp_ptr = run_ptr - size; while (cmp (run_ptr, tmp_ptr) < 0) tmp_ptr -= size;`
and the move of the element at `run_ptr` to the place after `tmp_ptr`. The elements before
`run_ptr` are given from right to left. -/
def insert_leftwards (cmp : service_info_t → service_info_t → Int) (x : service_info_t)
    (before : List service_info_t) : List service_info_t :=
  before.takeWhile (fun e => decide (cmp x e < 0)) ++
    x :: before.dropWhile (fun e => decide (cmp x e < 0))

/-- The last phase of glibc's `_quicksort`: the smallest element of the first
`MAX_THRESH = 4` places after the first is exchanged with the first, then the elements
from the third on are inserted one by one. -/
def insertion_phase (cmp : service_info_t → service_info_t → Int)
    (l : List service_info_t) : List service_info_t :=
  match l with
  | [] => []
  | first :: rest =>
    match swap_with_first l (smallest_in_threshold cmp first 0 1 (rest.take 4)) with
    | a :: b :: later =>
      (later.foldl (fun before x => insert_leftwards cmp x before) [b, a]).reverse
    | short => short

/-- The in-place sort `_quicksort` of glibc (stdlib/qsort.c), to which its `qsort` falls
back when it cannot allocate the buffer of its merge sort (stdlib/msort.c). The
partitioning phase, entered only with more than `MAX_THRESH = 4` elements, is a
parameter; the last phase always runs. -/
def glibc_quicksort (partition : Qsort) : Qsort :=
  fun l cmp => insertion_phase cmp (if l.length > 4 then partition l cmp else l)

/-- The entry the parser stores for `1b-beta` at runlevel 1. -/
def beta_one_entry : service_info_t :=
  { filename := "1b-beta".toList, name := "beta".toList, ordering_prefix := "b".toList,
    runlevel := 1, full_path := "/etc/inits.d/1b-beta".toList }

/-- The entry the parser stores for `1b-delta` at runlevel 1. -/
def delta_entry : service_info_t :=
  { filename := "1b-delta".toList, name := "delta".toList, ordering_prefix := "b".toList,
    runlevel := 1, full_path := "/etc/inits.d/1b-delta".toList }

/-- An environment in which every allocation succeeds and the directory lists the given
names. -/
def listing (entries : List (List Char)) : DiscoverEnv :=
  { malloc_ok := true, realloc_ok := fun _ => true, opendir := some entries,
    info0 := blank_info }

/-- The entry the parser stores for `1a-alpha` at runlevel 1. -/
def alpha_entry : service_info_t :=
  { filename := "1a-alpha".toList, name := "alpha".toList, ordering_prefix := "a".toList,
    runlevel := 1, full_path := "/etc/inits.d/1a-alpha".toList }

/-- The entry the parser stores for `1a-gamma` at runlevel 1. -/
def gamma_entry : service_info_t :=
  { filename := "1a-gamma".toList, name := "gamma".toList, ordering_prefix := "a".toList,
    runlevel := 1, full_path := "/etc/inits.d/1a-gamma".toList }

/-- The entry the parser stores for `2b-beta` at runlevel 2. -/
def beta_entry : service_info_t :=
  { filename := "2b-beta".toList, name := "beta".toList, ordering_prefix := "b".toList,
    runlevel := 2, full_path := "/etc/inits.d/2b-beta".toList }

/-- The directory of the scenario, in scan order. -/
def scenario_entries : List (List Char) :=
  ["10a-alpha".toList, "2b-beta".toList, "10a-gamma".toList]

/-! ## Execution engine and orchestrator (service.c 249-363, main.c 135-210) -/

/-- `SIGTERM` of `<signal.h>`. -/
def SIGTERM : Int := 15

/-- `SIGKILL` of `<signal.h>`. -/
def SIGKILL : Int := 9

/-- What `waitpid` stores in `status`, as POSIX describes it through the macros of
`<sys/wait.h>`. -/
inductive WaitStatus where
  /-- the child terminated normally; `code` is the low-order 8 bits of its exit status -/
  | exited (code : Nat)
  /-- the child was terminated by the signal `sig` -/
  | signaled (sig : Nat)
  /-- neither (a stopped or continued child) -/
  | other
deriving DecidableEq, Repr

/-- `WIFEXITED(status)` -/
def WIFEXITED : WaitStatus → Bool
  | .exited _ => true
  | _ => false

/-- `WEXITSTATUS(status)`, meaningful when `WIFEXITED(status)`. -/
def WEXITSTATUS : WaitStatus → Int
  | .exited code => (code : Int)
  | _ => 0

/-- `WIFSIGNALED(status)` -/
def WIFSIGNALED : WaitStatus → Bool
  | .signaled _ => true
  | _ => false

/-- `WTERMSIG(status)`, meaningful when `WIFSIGNALED(status)`. -/
def WTERMSIG : WaitStatus → Int
  | .signaled sig => (sig : Int)
  | _ => 0

/-- An observable action of the process, in the order of the trace. -/
inductive Event where
  /-- `log_message(format, ...)`, by its format string -/
  | log_message (format : String)
  /-- `log_service_start(service_name)` -/
  | log_service_start (service_name : List Char)
  /-- `log_service_complete(service_name, exit_status)` -/
  | log_service_complete (service_name : List Char) (exit_status : Int)
  /-- `fork()` -/
  | fork
  /-- `execl("/bin/sh", "sh", full_path, NULL)` in the forked child -/
  | execl (full_path : List Char)
  /-- `waitpid(pid, &status, 0)` -/
  | waitpid (pid : Int)
  /-- `kill(pid, signal)` -/
  | kill (pid : Int) (signal : Int)
  /-- `sleep(seconds)` -/
  | sleep (seconds : Nat)
deriving DecidableEq, Repr

/-- What the environment decides during a run of `main`. -/
structure RunEnv where
  /-- the value `fork()` returns in iteration `i` of the service loop -/
  fork : Nat → Int
  /-- `waitpid(pid, &status, 0)` in iteration `i`: the returned value and the status -/
  waitpid : Nat → Int → Int × WaitStatus
  /-- the value `kill(-1, signal)` returns, by call site of `shutdown_system` in `main`
  (0: line 190, 1: line 199) and by signal -/
  kill : Nat → Int → Int
  /-- delivery of `SIGTERM` or `SIGINT` to the process: `some t` when the handler sets
  `shutdown_requested` after the loop has read it `t` times and before it reads it
  again, `none` when no such signal arrives before the last read of the flag -/
  signal : Option Nat
  /-- the indeterminate initial content of the local `int exit_status` -/
  exit_status0 : Int

/-- The value of the flag `shutdown_requested` (main.c 30, set to 1 by `signal_handler`
and never cleared) at a read that `i` reads of the loop precede. Once set the flag stays
set, so a read that comes later still sees it set. -/
def shutdown_requested (env : RunEnv) (i : Nat) : Bool :=
  match env.signal with
  | none => false
  | some t => decide (t ≤ i)

/-- `execute_service(service)`, lines 249-277, given the value `fork()` returns. The
result is `none` in the forked child, which never returns from the call: `execl` replaces
the process image, or the child exits with status 127. -/
def execute_service (fork_result : Int) (service : service_info_t) :
    Option Int × List Event :=
  let pid := fork_result
  if pid < 0 then
    (some (-1), [.log_service_start service.name, .fork,
      .log_message "[ERROR] Failed to fork process for service %s"])
  else if pid = 0 then
    (none, [.log_service_start service.name, .fork, .execl service.full_path])
  else
    (some pid, [.log_service_start service.name, .fork])

/-- `wait_for_service(pid, exit_status)`, lines 284-308, given what `waitpid` returns:
the returned value, the content of `*exit_status` afterwards, and the trace. -/
def wait_for_service (waited : Int × WaitStatus) (pid : Int) (exit_status : Int) :
    Int × Int × List Event :=
  let result := waited.1
  let status := waited.2
  if result < 0 then
    (-1, exit_status, [.waitpid pid, .log_message "[ERROR] Failed to wait for process %d"])
  else if WIFEXITED status = true then
    (0, WEXITSTATUS status, [.waitpid pid])
  else if WIFSIGNALED status = true then
    (0, 128 + WTERMSIG status, [.waitpid pid])
  else
    (0, -1, [.waitpid pid])

/-- `send_signal_to_all(signal)`, lines 315-328, given what `kill` returns. -/
def send_signal_to_all (kill_result : Int → Int) (signal : Int) : Int × List Event :=
  if kill_result signal < 0 then
    (-1, [.log_message "[INFO] Sending %s to all processes", .kill (-1) signal,
      .log_message "[ERROR] Failed to send %s to all processes"])
  else
    (0, [.log_message "[INFO] Sending %s to all processes", .kill (-1) signal])

/-- `shutdown_system()`, lines 336-363, given what `kill` returns. -/
def shutdown_system (kill_result : Int → Int) : Int × List Event :=
  let term := send_signal_to_all kill_result SIGTERM
  let kill := send_signal_to_all kill_result SIGKILL
  (0,
    [.log_message "[INFO] Initiating system shutdown sequence"] ++ term.2 ++
    (if term.1 < 0 then [.log_message "[WARN] Failed to send SIGTERM, continuing shutdown"]
      else []) ++
    [.log_message "[INFO] Waiting 10 seconds for processes to terminate", .sleep 10] ++
    kill.2 ++
    (if kill.1 < 0 then [.log_message "[WARN] Failed to send SIGKILL, continuing shutdown"]
      else []) ++
    [.log_message "[INFO] Waiting 15 seconds for remaining processes", .sleep 15,
      .log_message "[INFO] Shutdown sequence complete"])

/-- The service loop of `main`, lines 155-183, from iteration `i` over the entries that
remain. The Boolean is `false` when the process is the forked child of an iteration,
which never comes back to the loop. -/
def run_services (env : RunEnv) : Nat → List service_info_t → Bool × List Event
  | _, [] => (true, [])
  | i, service :: rest =>
    if shutdown_requested env i = true then
      (true, [.log_message "[INFO] Shutdown requested, stopping service execution"])
    else
      let executed := execute_service (env.fork i) service
      match executed.1 with
      | none => (false, executed.2)
      | some pid =>
        if pid < 0 then
          let later := run_services env (i + 1) rest
          (later.1, executed.2 ++
            [.log_message "[ERROR] Failed to execute service %s"] ++ later.2)
        else
          let waited := wait_for_service (env.waitpid i pid) pid env.exit_status0
          if waited.1 < 0 then
            let later := run_services env (i + 1) rest
            (later.1, executed.2 ++ waited.2.2 ++
              [.log_message "[ERROR] Failed to wait for service %s"] ++ later.2)
          else
            let later := run_services env (i + 1) rest
            (later.1, executed.2 ++ waited.2.2 ++
              [.log_service_complete service.name waited.2.1] ++ later.2)

/-- The end of `main`, lines 185-209, reached by the orchestrator after the service
loop: the exit code and the trace. `count` is the number of entries of the catalog: the
loop has read the flag `count` times, or fewer when it found the flag set and stopped. -/
def main_shutdown (env : RunEnv) (runlevel : Int) (count : Nat) : Int × List Event :=
  let exit_code : Int := 0
  let first : Int × List Event :=
    if runlevel = 0 ∨ runlevel = 6 then
      let down := shutdown_system (env.kill 0)
      (if down.1 < 0 then 1 else exit_code,
        [.log_message "[INFO] Runlevel %d detected, initiating shutdown sequence"] ++ down.2 ++
        (if down.1 < 0 then [.log_message "[ERROR] Shutdown sequence encountered errors"]
          else []))
    else (exit_code, [])
  let second : Int × List Event :=
    if shutdown_requested env count = true then
      let down := shutdown_system (env.kill 1)
      (if down.1 < 0 then 1 else first.1,
        [.log_message "[INFO] Performing graceful shutdown due to signal"] ++ down.2 ++
        (if down.1 < 0 then [.log_message "[ERROR] Shutdown sequence encountered errors"]
          else []))
    else (first.1, [])
  (second.1,
    [.log_message "[INFO] Runlevel %d initialization complete"] ++ first.2 ++ second.2)

/-- `main()`, lines 135-210, given the value `init_system` returned and what
`discover_services` returned and stored. The exit code is `none` in a forked child. -/
def main (env : RunEnv) (runlevel : Int) (discovered : Int × service_list_t) :
    Option Int × List Event :=
  if runlevel < 0 then (some 1, [])
  else if discovered.1 < 0 then (some 1, [.log_message "[ERROR] Service discovery failed"])
  else
    let ran := run_services env 0 discovered.2.services
    if ran.1 = false then (none, ran.2)
    else
      let ending := main_shutdown env runlevel discovered.2.count
      (some ending.1, ran.2 ++ ending.2)

/-- The number of times `shutdown_system` was entered: each call starts with the log line
of line 337, which nothing else writes. -/
def shutdown_invocations (trace : List Event) : Nat :=
  trace.count (.log_message "[INFO] Initiating system shutdown sequence")

/-- The services launched, by name, in the order of their `log_service_start`. -/
def launched (trace : List Event) : List (List Char) :=
  trace.filterMap (fun e => match e with
    | .log_service_start service_name => some service_name
    | _ => none)

/-- The services whose completion was logged, by name, in the order of their
`log_service_complete`. -/
def completed (trace : List Event) : List (List Char) :=
  trace.filterMap (fun e => match e with
    | .log_service_complete service_name _ => some service_name
    | _ => none)

/-- An environment of the orchestrator in which `fork` returns the pids 100, 101, ...,
every `waitpid` reports a normal exit with code 0, `kill` succeeds, and the signal
arrives as given. -/
def quiet_run (signal : Option Nat) : RunEnv :=
  { fork := fun i => 100 + (i : Int)
    waitpid := fun _ pid => (pid, .exited 0)
    kill := fun _ _ => 0
    signal := signal
    exit_status0 := 0 }

/-- The same environment, except that every `waitpid` fails. -/
def failing_wait_run (signal : Option Nat) : RunEnv :=
  { quiet_run signal with waitpid := fun _ _ => (-1, .other) }

/-- The system calls of a trace that signal or wait: its `kill` and `sleep` events, in
order. -/
def signals_and_sleeps (trace : List Event) : List Event :=
  trace.filter (fun e => match e with
    | .kill _ _ => true
    | .sleep _ => true
    | _ => false)

/-- The launch and reap actions of a trace: its `log_service_start`, `fork` and `waitpid`
events, in order. -/
def schedule (trace : List Event) : List Event :=
  trace.filter (fun e => match e with
    | .log_service_start _ => true
    | .fork => true
    | .waitpid _ => true
    | _ => false)

/-- The launch and reap actions a strictly sequential pass over the entries performs from
iteration `i` on: each entry is launched once, in order, and a child whose launch succeeded
is waited for by its own pid before the next entry is launched. -/
def sequential_schedule (env : RunEnv) : Nat → List service_info_t → List Event
  | _, [] => []
  | i, service :: rest =>
    [.log_service_start service.name, .fork] ++
      (if 0 < env.fork i then [.waitpid (env.fork i)] else []) ++
      sequential_schedule env (i + 1) rest

/-- An environment of the orchestrator without any signal, in which the launch of the
second entry fails and the wait for the third fails. -/
def bumpy_run : RunEnv :=
  { fork := fun i => if i = 1 then -1 else 100 + (i : Int)
    waitpid := fun i pid => if i = 2 then (-1, .other) else (pid, .exited 0)
    kill := fun _ _ => 0
    signal := none
    exit_status0 := 0 }

/-- The environment of the child that the `fork` of iteration `i` creates: the child has
the history of the orchestrator up to that call, and in it the call returns 0. -/
def child_env (env : RunEnv) (i : Nat) : RunEnv :=
  { env with fork := fun k => if k = i then 0 else env.fork k }

/-! ## Facts about characters -/

theorem isAlpha_ne_dash (c : Char) (h : c.isAlpha = true) : c ≠ '-' := by
  rintro rfl
  revert h
  decide

theorem isDigit_ne_dash (c : Char) (h : c.isDigit = true) : c ≠ '-' := by
  rintro rfl
  revert h
  decide

theorem isAlpha_not_isDigit (c : Char) (h : c.isAlpha = true) : c.isDigit = false := by
  simp only [Char.isAlpha, Char.isUpper, Char.isLower, Char.isDigit, Bool.or_eq_true,
    Bool.and_eq_true, decide_eq_true_eq, Bool.and_eq_false_imp, decide_eq_false_iff_not,
    UInt32.le_def, BitVec.le_def] at *
  intro h1
  simp at *
  omega

theorem isDigit_not_isAlpha (c : Char) (h : c.isDigit = true) : c.isAlpha = false := by
  cases h2 : c.isAlpha
  · rfl
  · rw [isAlpha_not_isDigit c h2] at h
    exact absurd h (by decide)

/-! ## The inner loop -/

theorem skip_alpha_eq_dropWhile (p : List Char) :
    skip_alpha p = p.dropWhile (fun c => decide (c ≠ '-') && c.isAlpha) := by
  induction p with
  | nil => rfl
  | cons c cs ih =>
    by_cases h : c ≠ '-' ∧ c.isAlpha = true
    · have h2 : (decide (c ≠ '-') && c.isAlpha) = true := by simp [h.1, h.2]
      rw [skip_alpha, if_pos h, List.dropWhile_cons, if_pos h2, ih]
    · have h2 : ¬ ((decide (c ≠ '-') && c.isAlpha) = true) := by
        simpa using h
      rw [skip_alpha, if_neg h, List.dropWhile_cons, if_neg h2]

/-- The run the inner loop steps over. -/
theorem run_append_skip_alpha (p : List Char) :
    p.takeWhile (fun c => decide (c ≠ '-') && c.isAlpha) ++ skip_alpha p = p := by
  rw [skip_alpha_eq_dropWhile]
  exact List.takeWhile_append_dropWhile _ _

theorem skip_alpha_append (run tail : List Char) (hrun : ∀ c ∈ run, c.isAlpha = true)
    (htail : skip_alpha tail = tail) : skip_alpha (run ++ tail) = tail := by
  induction run with
  | nil => simpa using htail
  | cons c cs ih =>
    have hc : c.isAlpha = true := hrun c (List.mem_cons_self _ _)
    have h : c ≠ '-' ∧ c.isAlpha = true := ⟨isAlpha_ne_dash c hc, hc⟩
    rw [List.cons_append, skip_alpha, if_pos h]
    exact ih (fun d hd => hrun d (List.mem_cons_of_mem _ hd))

theorem skip_alpha_stops_of_not_alpha (c : Char) (cs : List Char) (h : c.isAlpha = false) :
    skip_alpha (c :: cs) = c :: cs := by
  rw [skip_alpha, if_neg]
  simp [h]

theorem Group.valid_iff (g : Group) :
    g.valid = true ↔ g.1.isDigit = true ∧ g.2 ≠ [] ∧ ∀ c ∈ g.2, c.isAlpha = true := by
  simp [Group.valid, List.isEmpty_iff, and_assoc]

theorem skip_alpha_encodeGroups (gs : List Group) (rest : List Char)
    (hgs : ∀ g ∈ gs, g.valid = true) (hrest : skip_alpha rest = rest) :
    skip_alpha (encodeGroups gs ++ rest) = encodeGroups gs ++ rest := by
  cases gs with
  | nil => simpa [encodeGroups] using hrest
  | cons g gs =>
    have hg := (Group.valid_iff g).1 (hgs g (List.mem_cons_self _ _))
    simp only [encodeGroups, List.cons_append]
    exact skip_alpha_stops_of_not_alpha _ _ (isDigit_not_isAlpha _ hg.1)

/-! ## The outer loop -/

theorem skip_alpha_stops_at_exit (rest : List Char) (hrest : rest = [] ∨ ∃ t, rest = '-' :: t) :
    skip_alpha rest = rest := by
  rcases hrest with rfl | ⟨t, rfl⟩
  · rfl
  · exact skip_alpha_stops_of_not_alpha _ _ (by decide)

theorem strncpy_run (run tail : List Char) :
    strncpy (run ++ tail) (if run.length ≥ 64 then 64 - 1 else run.length) = run.take 63 := by
  unfold strncpy
  split
  · rw [List.take_append_of_le_length (by omega)]
  · rw [List.take_left, List.take_of_length_le (by omega)]

/-- The loop on the text of well-formed pairs followed by the separator or by the end of
the string: it is left by its condition, at that point, with the locals as `scanGroups`
computes them. -/
theorem parse_loop_encodeGroups (r : Int) (gs : List Group) (rest : List Char)
    (hgs : ∀ g ∈ gs, g.valid = true) (hrest : rest = [] ∨ ∃ t, rest = '-' :: t)
    (f : Int) (op : List Char) :
    parse_loop r (encodeGroups gs ++ rest) f op =
      .done rest (scanGroups r gs (f, op)).1 (scanGroups r gs (f, op)).2 := by
  induction gs generalizing f op with
  | nil =>
    rcases hrest with rfl | ⟨t, rfl⟩
    · simp [encodeGroups, parse_loop, scanGroups]
    · simp [encodeGroups, parse_loop, scanGroups]
  | cons g gs ih =>
    have hg := (Group.valid_iff g).1 (hgs g (List.mem_cons_self _ _))
    have hgs2 : ∀ g2 ∈ gs, g2.valid = true := fun g2 h2 => hgs g2 (List.mem_cons_of_mem _ h2)
    have hskip : skip_alpha (g.2 ++ (encodeGroups gs ++ rest)) = encodeGroups gs ++ rest :=
      skip_alpha_append _ _ hg.2.2
        (skip_alpha_encodeGroups gs rest hgs2 (skip_alpha_stops_at_exit rest hrest))
    have hlen : 0 < g.2.length := List.length_pos.2 hg.2.1
    have hne : ¬ (encodeGroups gs ++ rest).length = (g.2 ++ (encodeGroups gs ++ rest)).length := by
      simp only [List.length_append]; omega
    have hsub : (g.2 ++ (encodeGroups gs ++ rest)).length - (encodeGroups gs ++ rest).length
        = g.2.length := by
      simp only [List.length_append]; omega
    simp only [encodeGroups, List.cons_append, List.append_assoc]
    rw [parse_loop, if_neg (isDigit_ne_dash _ hg.1), if_pos hg.1]
    simp only [hskip, hne, if_false, hsub, strncpy_run]
    by_cases hr : digitValue g.1 = r
    · rw [if_pos hr, ih hgs2]
      simp only [scanGroups, hr, if_true]
    · rw [if_neg hr, ih hgs2]
      simp only [scanGroups, hr, if_false]

/-- Whenever the loop is left by its condition, the text it has stepped over is a
sequence of well-formed pairs, it stands at the separator or at the end of the string, and
the locals are as `scanGroups` computes them. -/
theorem parse_loop_done (r : Int) (p : List Char) (f : Int) (op : List Char)
    (p1 : List Char) (f1 : Int) (op1 : List Char)
    (h : parse_loop r p f op = .done p1 f1 op1) :
    ∃ gs : List Group, (∀ g ∈ gs, g.valid = true) ∧ p = encodeGroups gs ++ p1 ∧
      (p1 = [] ∨ ∃ t, p1 = '-' :: t) ∧ scanGroups r gs (f, op) = (f1, op1) := by
  obtain ⟨n, hn⟩ : ∃ n, p.length = n := ⟨_, rfl⟩
  induction n using Nat.strong_induction_on generalizing p f op with
  | _ n ih =>
    cases p with
    | nil =>
      simp only [parse_loop, LoopExit.done.injEq] at h
      obtain ⟨rfl, rfl, rfl⟩ := h
      exact ⟨[], by simp, by simp [encodeGroups], Or.inl rfl, rfl⟩
    | cons c cs =>
      rw [parse_loop] at h
      by_cases hc : c = '-'
      · rw [if_pos hc] at h
        simp only [LoopExit.done.injEq] at h
        obtain ⟨rfl, rfl, rfl⟩ := h
        exact ⟨[], by simp, by simp [encodeGroups], Or.inr ⟨cs, by rw [hc]⟩, rfl⟩
      · rw [if_neg hc] at h
        by_cases hd : c.isDigit = true
        · rw [if_pos hd] at h
          simp only at h
          by_cases hl : (skip_alpha cs).length = cs.length
          · rw [if_pos hl] at h
            exact absurd h (by simp)
          · rw [if_neg hl] at h
            have hsplit := run_append_skip_alpha cs
            generalize hrun : cs.takeWhile (fun c => decide (c ≠ '-') && c.isAlpha) = run at hsplit
            have hrunalpha : ∀ d ∈ run, d.isAlpha = true := by
              intro d hd2
              rw [← hrun] at hd2
              have := List.mem_takeWhile_imp hd2
              simp only [Bool.and_eq_true, decide_eq_true_eq] at this
              exact this.2
            have hlen : cs.length = run.length + (skip_alpha cs).length := by
              conv_lhs => rw [← hsplit]
              simp
            have hrunne : run ≠ [] := by
              intro h0
              rw [h0] at hlen
              simp at hlen
              exact hl hlen.symm
            have hcopy : strncpy cs (if cs.length - (skip_alpha cs).length ≥ 64 then 64 - 1
                else cs.length - (skip_alpha cs).length) = run.take 63 := by
              have h1 : cs.length - (skip_alpha cs).length = run.length := by omega
              rw [h1]
              conv_lhs => rw [← hsplit]
              exact strncpy_run run _
            have hshort : (skip_alpha cs).length < n := by
              rw [← hn]; simp only [List.length_cons]; omega
            have hvalid : Group.valid (c, run) = true :=
              (Group.valid_iff (c, run)).2 ⟨hd, hrunne, hrunalpha⟩
            by_cases hr : digitValue c = r
            · rw [if_pos hr, hcopy] at h
              obtain ⟨gs, hgs, hp, hexit, hscan⟩ := ih _ hshort _ _ _ h rfl
              refine ⟨(c, run) :: gs, ?_, ?_, hexit, ?_⟩
              · intro g hg
                rcases List.mem_cons.1 hg with rfl | hg
                · exact hvalid
                · exact hgs g hg
              · simp only [encodeGroups, List.cons_append, List.append_assoc]
                rw [← hp, hsplit]
              · simpa only [scanGroups, hr, if_true] using hscan
            · rw [if_neg hr] at h
              obtain ⟨gs, hgs, hp, hexit, hscan⟩ := ih _ hshort _ _ _ h rfl
              refine ⟨(c, run) :: gs, ?_, ?_, hexit, ?_⟩
              · intro g hg
                rcases List.mem_cons.1 hg with rfl | hg
                · exact hvalid
                · exact hgs g hg
              · simp only [encodeGroups, List.cons_append, List.append_assoc]
                rw [← hp, hsplit]
              · simpa only [scanGroups, hr, if_false] using hscan
        · rw [if_neg hd] at h
          exact absurd h (by simp)

/-- The only value the loop returns from inside is `-1`. -/
theorem parse_loop_ret (r : Int) (p : List Char) (f : Int) (op : List Char) (v : Int)
    (h : parse_loop r p f op = .ret v) : v = -1 := by
  obtain ⟨n, hn⟩ : ∃ n, p.length = n := ⟨_, rfl⟩
  induction n using Nat.strong_induction_on generalizing p f op with
  | _ n ih =>
    cases p with
    | nil => simp [parse_loop] at h
    | cons c cs =>
      rw [parse_loop] at h
      have hshort : (skip_alpha cs).length < n := by
        have := congrArg List.length (run_append_skip_alpha cs)
        rw [← hn]
        simp only [List.length_append, List.length_cons] at this ⊢
        omega
      split at h
      · simp at h
      · split at h
        · simp only at h
          split at h
          · simp only [LoopExit.ret.injEq] at h
            exact h.symm
          · split at h
            · exact ih _ hshort _ _ _ h rfl
            · exact ih _ hshort _ _ _ h rfl
        · simp only [LoopExit.ret.injEq] at h
          exact h.symm

/-! ## What a pass over the pairs leaves behind -/

theorem scanGroups_no_match (r : Int) (gs : List Group) (st : Int × List Char)
    (h : ∀ g ∈ gs, digitValue g.1 ≠ r) : scanGroups r gs st = st := by
  induction gs generalizing st with
  | nil => rfl
  | cons g gs ih =>
    have hg : digitValue g.1 ≠ r := h g (List.mem_cons_self _ _)
    simp only [scanGroups, hg, if_false]
    exact ih st (fun g2 h2 => h g2 (List.mem_cons_of_mem _ h2))

theorem scanGroups_append (r : Int) (gs hs : List Group) (st : Int × List Char) :
    scanGroups r (gs ++ hs) st = scanGroups r hs (scanGroups r gs st) := by
  induction gs generalizing st with
  | nil => rfl
  | cons g gs ih =>
    simp only [List.cons_append, scanGroups]
    exact ih _

/-- The last pair carrying the target digit decides the locals. -/
theorem scanGroups_last_match (r : Int) (pre post : List Group) (g : Group)
    (st : Int × List Char) (hg : digitValue g.1 = r) (hpost : ∀ g2 ∈ post, digitValue g2.1 ≠ r) :
    scanGroups r (pre ++ g :: post) st = (1, g.2.take 63) := by
  rw [scanGroups_append]
  simp only [scanGroups, hg, if_true]
  exact scanGroups_no_match r post _ hpost

theorem scanGroups_fst (r : Int) (gs : List Group) (f : Int) (op : List Char) :
    ((∃ g ∈ gs, digitValue g.1 = r) → (scanGroups r gs (f, op)).1 = 1) ∧
    ((¬ ∃ g ∈ gs, digitValue g.1 = r) → (scanGroups r gs (f, op)).1 = f) := by
  induction gs generalizing f op with
  | nil => simp [scanGroups]
  | cons g gs ih =>
    by_cases hg : digitValue g.1 = r
    · simp only [scanGroups, hg, if_true]
      refine ⟨fun _ => ?_, fun hno => absurd ⟨g, List.mem_cons_self _ _, hg⟩ hno⟩
      by_cases h2 : ∃ g2 ∈ gs, digitValue g2.1 = r
      · exact (ih 1 _).1 h2
      · exact (ih 1 _).2 h2
    · simp only [scanGroups, hg, if_false]
      constructor
      · rintro ⟨g2, hg2, hr2⟩
        rcases List.mem_cons.1 hg2 with rfl | hg2
        · exact absurd hr2 hg
        · exact (ih f op).1 ⟨g2, hg2, hr2⟩
      · intro hno
        exact (ih f op).2 (fun ⟨g2, hg2, hr2⟩ => hno ⟨g2, List.mem_cons_of_mem _ hg2, hr2⟩)

theorem scanGroups_found (r : Int) (gs : List Group) (op : List Char) :
    (scanGroups r gs (0, op)).1 ≠ 0 ↔ ∃ g ∈ gs, digitValue g.1 = r := by
  constructor
  · intro h
    by_contra hno
    exact h ((scanGroups_fst r gs 0 op).2 hno)
  · intro h
    rw [(scanGroups_fst r gs 0 op).1 h]
    decide

/-! ## The parser on a whole filename -/

/-- The parser on the text of well-formed pairs, the separator and a non-empty name. -/
theorem parse_service_filename_encode (gs : List Group) (name : List Char) (r : Int)
    (info : service_info_t) (hgs : ∀ g ∈ gs, g.valid = true) (hname : name ≠ []) :
    parse_service_filename (encodeGroups gs ++ '-' :: name) r info =
      if (scanGroups r gs (0, [])).1 ≠ 0 then
        (1, { filename := strncpy (encodeGroups gs ++ '-' :: name) (256 - 1)
              name := strncpy name (256 - 1)
              ordering_prefix := strncpy (scanGroups r gs (0, [])).2 (64 - 1)
              runlevel := r
              full_path := full_path_of (encodeGroups gs ++ '-' :: name) })
      else (0, info) := by
  unfold parse_service_filename
  rw [parse_loop_encodeGroups r gs ('-' :: name) hgs (Or.inr ⟨name, rfl⟩)]
  cases name with
  | nil => exact absurd rfl hname
  | cons c cs => simp

/-- A filename the parser does not reject is the text of well-formed pairs, the
separator and a non-empty name. -/
theorem parse_service_filename_not_invalid (filename : List Char) (r : Int)
    (info : service_info_t) (h : (parse_service_filename filename r info).1 ≠ -1) :
    ∃ (gs : List Group) (name : List Char), (∀ g ∈ gs, g.valid = true) ∧ name ≠ [] ∧
      filename = encodeGroups gs ++ '-' :: name := by
  unfold parse_service_filename at h
  cases hloop : parse_loop r filename 0 [] with
  | ret v =>
    exfalso
    rw [hloop] at h
    exact h (parse_loop_ret r filename 0 [] v hloop)
  | done p f op =>
    rw [hloop] at h
    obtain ⟨gs, hgs, hp, hexit, _⟩ := parse_loop_done r filename 0 [] p f op hloop
    rcases hexit with rfl | ⟨t, rfl⟩
    · exact absurd rfl h
    · cases t with
      | nil => simp at h
      | cons c cs => exact ⟨gs, c :: cs, hgs, by simp, hp⟩

theorem encodeGroups_ne_dash (gs : List Group) (hgs : ∀ g ∈ gs, g.valid = true) :
    ∀ c ∈ encodeGroups gs, c ≠ '-' := by
  induction gs with
  | nil => simp [encodeGroups]
  | cons g gs ih =>
    have hg := (Group.valid_iff g).1 (hgs g (List.mem_cons_self _ _))
    intro c hc
    simp only [encodeGroups, List.mem_cons, List.mem_append] at hc
    rcases hc with rfl | hc | hc
    · exact isDigit_ne_dash _ hg.1
    · exact isAlpha_ne_dash _ (hg.2.2 c hc)
    · exact ih (fun g2 h2 => hgs g2 (List.mem_cons_of_mem _ h2)) c hc

/-- The part of a well-formed filename before its first separator is the text of its
pairs. -/
theorem takeWhile_encodeGroups (gs : List Group) (name : List Char)
    (hgs : ∀ g ∈ gs, g.valid = true) :
    (encodeGroups gs ++ '-' :: name).takeWhile (fun c => c != '-') = encodeGroups gs := by
  have h := encodeGroups_ne_dash gs hgs
  generalize encodeGroups gs = l at h
  induction l with
  | nil => simp [List.takeWhile]
  | cons c cs ih =>
    have hc : (c != '-') = true := by simpa using h c (List.mem_cons_self _ _)
    rw [List.cons_append, List.takeWhile_cons, if_pos hc,
      ih (fun d hd => h d (List.mem_cons_of_mem _ hd))]

/-- The digits in the text of well-formed pairs are the digits of the pairs. -/
theorem digit_mem_encodeGroups (gs : List Group) (r : Int) (hgs : ∀ g ∈ gs, g.valid = true) :
    (∃ c ∈ encodeGroups gs, c.isDigit = true ∧ digitValue c = r) ↔
      ∃ g ∈ gs, digitValue g.1 = r := by
  induction gs with
  | nil => simp [encodeGroups]
  | cons g gs ih =>
    have hg := (Group.valid_iff g).1 (hgs g (List.mem_cons_self _ _))
    have ih2 := ih (fun g2 h2 => hgs g2 (List.mem_cons_of_mem _ h2))
    constructor
    · rintro ⟨c, hc, hd, hr⟩
      simp only [encodeGroups, List.mem_cons, List.mem_append] at hc
      rcases hc with rfl | hc | hc
      · exact ⟨g, List.mem_cons_self _ _, hr⟩
      · rw [isAlpha_not_isDigit c (hg.2.2 c hc)] at hd
        exact absurd hd (by decide)
      · obtain ⟨g2, hg2, hr2⟩ := ih2.1 ⟨c, hc, hd, hr⟩
        exact ⟨g2, List.mem_cons_of_mem _ hg2, hr2⟩
    · rintro ⟨g2, hg2, hr2⟩
      rcases List.mem_cons.1 hg2 with rfl | hg2
      · exact ⟨g2.1, by simp [encodeGroups], hg.1, hr2⟩
      · obtain ⟨c, hc, hd, hr⟩ := ih2.2 ⟨g2, hg2, hr2⟩
        exact ⟨c, by simp [encodeGroups, hc], hd, hr⟩

/-! ## Claims about the filename parser -/

/-- C1 (counterexample): `3` followed by 64 letters `a`, then `-x`, matches the grammar and
runlevel 3 is matched, but the stored ordering prefix is only the first 63 letters, not
the whole run of 64. -/
theorem parse_service_filename_long_run_truncated :
    MatchesGrammar ('3' :: (List.replicate 64 'a' ++ ['-', 'x'])) ∧
    digitValue '3' = 3 ∧
    (parse_service_filename ('3' :: (List.replicate 64 'a' ++ ['-', 'x'])) 3 blank_info).1 = 1 ∧
    service_info_t.ordering_prefix
      (parse_service_filename ('3' :: (List.replicate 64 'a' ++ ['-', 'x'])) 3 blank_info).2
        = List.replicate 63 'a' ∧
    service_info_t.ordering_prefix
      (parse_service_filename ('3' :: (List.replicate 64 'a' ++ ['-', 'x'])) 3 blank_info).2
        ≠ List.replicate 64 'a' := by
  have hv : ∀ g ∈ [(('3', List.replicate 64 'a') : Group)], Group.valid g = true := by decide
  have hscan : scanGroups 3 [(('3', List.replicate 64 'a') : Group)] (0, [])
      = (1, List.replicate 63 'a') := by decide
  have htext : '3' :: (List.replicate 64 'a' ++ ['-', 'x'])
      = encodeGroups [('3', List.replicate 64 'a')] ++ '-' :: ['x'] := by
    simp [encodeGroups]
  rw [htext]
  refine ⟨⟨_, _, by simp, hv, by simp, rfl⟩, by decide, ?_, ?_, ?_⟩
  · rw [parse_service_filename_encode _ _ _ _ hv (by simp), hscan]
    simp
  · rw [parse_service_filename_encode _ _ _ _ hv (by simp), hscan]
    simp [strncpy]
  · rw [parse_service_filename_encode _ _ _ _ hv (by simp), hscan]
    simp only [strncpy]
    decide

/-- C1 (as amended): on a filename made of well-formed pairs, `-` and a non-empty name,
with the target runlevel the digit of one of the pairs, the parser returns 1 and the
stored ordering prefix is the first 63 characters of the alphabetic run of that pair (the
whole run when it has at most 63 characters); when several pairs carry the digit, the
pair is the last of them. -/
theorem parse_service_filename_matched_ordering_prefix (pre post : List Group) (g : Group)
    (name : List Char) (r : Int) (info : service_info_t)
    (hvalid : ∀ g2 ∈ pre ++ g :: post, g2.valid = true) (hname : name ≠ [])
    (hdigit : digitValue g.1 = r) (hlast : ∀ g2 ∈ post, digitValue g2.1 ≠ r) :
    (parse_service_filename (encodeGroups (pre ++ g :: post) ++ '-' :: name) r info).1 = 1 ∧
    service_info_t.ordering_prefix
      (parse_service_filename (encodeGroups (pre ++ g :: post) ++ '-' :: name) r info).2
        = g.2.take 63 ∧
    (g.2.length ≤ 63 → service_info_t.ordering_prefix
      (parse_service_filename (encodeGroups (pre ++ g :: post) ++ '-' :: name) r info).2
        = g.2) := by
  have hscan := scanGroups_last_match r pre post g (0, []) hdigit hlast
  have hres : parse_service_filename (encodeGroups (pre ++ g :: post) ++ '-' :: name) r info =
      (1, { filename := strncpy (encodeGroups (pre ++ g :: post) ++ '-' :: name) (256 - 1)
            name := strncpy name (256 - 1)
            ordering_prefix := strncpy (g.2.take 63) (64 - 1)
            runlevel := r
            full_path := full_path_of (encodeGroups (pre ++ g :: post) ++ '-' :: name) }) := by
    rw [parse_service_filename_encode _ _ _ _ hvalid hname, hscan]
    simp
  have htake : strncpy (g.2.take 63) (64 - 1) = g.2.take 63 := by
    simp [strncpy, List.take_take]
  rw [hres]
  refine ⟨rfl, htake, fun hlen => ?_⟩
  simp only [htake]
  exact List.take_of_length_le hlen

/-- C1 (witness): `3a1b-network` at runlevel 1. -/
theorem parse_service_filename_matched_ordering_prefix_witness :
    (∀ g2 ∈ [(('3', ['a']) : Group)] ++ ('1', ['b']) :: [], Group.valid g2 = true) ∧
    "network".toList ≠ [] ∧ digitValue '1' = 1 ∧
    (parse_service_filename
      (encodeGroups ([('3', ['a'])] ++ ('1', ['b']) :: []) ++ '-' :: "network".toList)
      1 blank_info).1 = 1 ∧
    service_info_t.ordering_prefix (parse_service_filename
      (encodeGroups ([('3', ['a'])] ++ ('1', ['b']) :: []) ++ '-' :: "network".toList)
      1 blank_info).2 = List.take 63 ['b'] ∧
    ((['b'] : List Char).length ≤ 63 → service_info_t.ordering_prefix (parse_service_filename
      (encodeGroups ([('3', ['a'])] ++ ('1', ['b']) :: []) ++ '-' :: "network".toList)
      1 blank_info).2 = ['b']) :=
  ⟨by decide, by decide, by decide,
    parse_service_filename_matched_ordering_prefix [('3', ['a'])] [] ('1', ['b'])
      "network".toList 1 blank_info (by decide) (by decide) (by decide) (by decide)⟩

/-- C2 (counterexample): `-foo` has no pair before the separator, so it does not match
the grammar `(<digit><alpha>+)+ '-' <name>`; its first character is not a digit; yet the
parser returns 0 (not matched), not -1. -/
theorem parse_service_filename_leading_dash :
    ¬ MatchesGrammar "-foo".toList ∧ '-'.isDigit = false ∧
    (parse_service_filename "-foo".toList 3 blank_info).1 = 0 := by
  refine ⟨?_, by decide, ?_⟩
  · rintro ⟨gs, name, hne, hgs, _, htext⟩
    cases gs with
    | nil => exact hne rfl
    | cons g gs =>
      have hg := (Group.valid_iff g).1 (hgs g (List.mem_cons_self _ _))
      have hhead : '-' = g.1 := by
        have := congrArg List.head? htext
        simpa [encodeGroups] using this
      rw [← hhead] at hg
      exact absurd hg.1 (by decide)
  · have htext : "-foo".toList = encodeGroups [] ++ '-' :: "foo".toList := by decide
    rw [htext, parse_service_filename_encode [] _ _ _ (by simp) (by decide)]
    simp [scanGroups]

/-- C2 (as amended): the parser returns -1 exactly on the filenames that are not zero or
more repetitions of a decimal digit followed by one or more alphabetic characters, then
`-`, then a non-empty remainder. In particular a filename whose first character is
neither a digit nor `-` is rejected. -/
theorem parse_service_filename_invalid_iff (filename : List Char) (r : Int)
    (info : service_info_t) :
    ((parse_service_filename filename r info).1 = -1 ↔ ¬ MatchesGrammarStar filename) ∧
    (∀ (c : Char) (cs : List Char), filename = c :: cs → c.isDigit = false → c ≠ '-' →
      (parse_service_filename filename r info).1 = -1) := by
  have hiff : (parse_service_filename filename r info).1 = -1 ↔ ¬ MatchesGrammarStar filename := by
    constructor
    · rintro h ⟨gs, name, hgs, hname, rfl⟩
      rw [parse_service_filename_encode gs name r info hgs hname] at h
      split at h
      · simp at h
      · simp at h
    · intro h
      by_contra hret
      exact h (parse_service_filename_not_invalid filename r info hret)
  refine ⟨hiff, ?_⟩
  rintro c cs rfl hdigit hdash
  rw [hiff]
  rintro ⟨gs, name, hgs, _, htext⟩
  cases gs with
  | nil =>
    have := congrArg List.head? htext
    simp [encodeGroups] at this
    exact hdash this
  | cons g gs =>
    have hg := (Group.valid_iff g).1 (hgs g (List.mem_cons_self _ _))
    have hhead : c = g.1 := by
      have := congrArg List.head? htext
      simpa [encodeGroups] using this
    rw [← hhead, hdigit] at hg
    exact absurd hg.1 (by decide)

/-- C2 (witness): `foo-bar` starts with a letter and is rejected. -/
theorem parse_service_filename_invalid_iff_witness :
    (parse_service_filename "foo-bar".toList 3 blank_info).1 = -1 :=
  (parse_service_filename_invalid_iff "foo-bar".toList 3 blank_info).2 'f' "oo-bar".toList
    (by decide) (by decide) (by decide)

/-- C3: a filename without any `-` (the empty filename included) is rejected, whatever the
requested runlevel. -/
theorem parse_service_filename_no_separator (filename : List Char) (r : Int)
    (info : service_info_t) (h : '-' ∉ filename) :
    (parse_service_filename filename r info).1 = -1 := by
  by_contra hret
  obtain ⟨gs, name, _, _, rfl⟩ := parse_service_filename_not_invalid filename r info hret
  exact h (by simp)

/-- C3 (witness): `3anetwork` and the empty filename. -/
theorem parse_service_filename_no_separator_witness :
    ('-' ∉ "3anetwork".toList ∧
      (parse_service_filename "3anetwork".toList 3 blank_info).1 = -1) ∧
    ('-' ∉ ([] : List Char) ∧ (parse_service_filename [] 3 blank_info).1 = -1) :=
  ⟨⟨by decide, parse_service_filename_no_separator "3anetwork".toList 3 blank_info (by decide)⟩,
    ⟨by decide, parse_service_filename_no_separator [] 3 blank_info (by decide)⟩⟩

/-- C4: on a filename the parser does not reject, the result is 1 exactly when a digit of
the part before the first `-` equals the target runlevel, and 0 exactly when none does. -/
theorem parse_service_filename_matched_iff (filename : List Char) (r : Int)
    (info : service_info_t) (h : (parse_service_filename filename r info).1 ≠ -1) :
    ((parse_service_filename filename r info).1 = 1 ↔
      ∃ c ∈ filename.takeWhile (fun c => c != '-'), c.isDigit = true ∧ digitValue c = r) ∧
    ((parse_service_filename filename r info).1 = 0 ↔
      ¬ ∃ c ∈ filename.takeWhile (fun c => c != '-'), c.isDigit = true ∧ digitValue c = r) := by
  obtain ⟨gs, name, hgs, hname, rfl⟩ := parse_service_filename_not_invalid filename r info h
  rw [takeWhile_encodeGroups gs name hgs, digit_mem_encodeGroups gs r hgs,
    parse_service_filename_encode gs name r info hgs hname, ← scanGroups_found r gs []]
  by_cases hf : (scanGroups r gs (0, [])).1 ≠ 0
  · rw [if_pos hf]
    simp [hf]
  · rw [if_neg hf]
    simp [hf]

/-- C4 (witness): `3x-svc` is not rejected and, for runlevel 5, is not matched. -/
theorem parse_service_filename_matched_iff_witness :
    (parse_service_filename "3x-svc".toList 5 blank_info).1 ≠ -1 ∧
    (parse_service_filename "3x-svc".toList 5 blank_info).1 = 0 :=
  have hvalid : (parse_service_filename "3x-svc".toList 5 blank_info).1 ≠ -1 := by
    simp [parse_service_filename, parse_loop, skip_alpha, digitValue]
  ⟨hvalid, (parse_service_filename_matched_iff "3x-svc".toList 5 blank_info hvalid).2.2
    (by decide)⟩

/-! ## `strcmp` -/

theorem toNat_eq_imp_eq (a b : Char) (h : a.toNat = b.toNat) : a = b :=
  Char.ext (UInt32.ext h)

theorem strcmp_swap (a b : List Char) : strcmp b a = - strcmp a b := by
  induction a generalizing b with
  | nil =>
    cases b with
    | nil => simp [strcmp]
    | cons y ys => simp [strcmp]
  | cons x xs ih =>
    cases b with
    | nil => simp [strcmp]
    | cons y ys =>
      by_cases hxy : x.toNat ≠ 0 ∧ x = y
      · have hyx : y.toNat ≠ 0 ∧ y = x := ⟨hxy.2 ▸ hxy.1, hxy.2.symm⟩
        simp only [strcmp, if_pos hxy, if_pos hyx]
        exact ih ys
      · have hyx : ¬ (y.toNat ≠ 0 ∧ y = x) := fun h => hxy ⟨h.2 ▸ h.1, h.2.symm⟩
        simp only [strcmp, if_neg hxy, if_neg hyx]
        omega

theorem strcmp_le_trans (a b c : List Char) (hab : strcmp a b ≤ 0) (hbc : strcmp b c ≤ 0) :
    strcmp a c ≤ 0 := by
  induction a generalizing b c with
  | nil =>
    cases c with
    | nil => simp [strcmp]
    | cons z zs => simp only [strcmp]; omega
  | cons x xs ih =>
    cases b with
    | nil =>
      simp only [strcmp] at hab
      have hx : x.toNat = 0 := by omega
      cases c with
      | nil => simpa only [strcmp] using hab
      | cons z zs =>
        have hxz : ¬ (x.toNat ≠ 0 ∧ x = z) := fun h => h.1 hx
        simp only [strcmp, if_neg hxz]
        omega
    | cons y ys =>
      cases c with
      | nil =>
        simp only [strcmp] at hbc ⊢
        have hy : y.toNat = 0 := by omega
        have hxy : ¬ (x.toNat ≠ 0 ∧ x = y) := fun h => h.1 (h.2 ▸ hy)
        simp only [strcmp, if_neg hxy] at hab
        omega
      | cons z zs =>
        by_cases hxy : x.toNat ≠ 0 ∧ x = y
        · simp only [strcmp, if_pos hxy] at hab
          obtain ⟨hx0, rfl⟩ := hxy
          by_cases hxz : x.toNat ≠ 0 ∧ x = z
          · simp only [strcmp, if_pos hxz] at hbc ⊢
            exact ih ys zs hab hbc
          · simp only [strcmp, if_neg hxz] at hbc ⊢
            exact hbc
        · simp only [strcmp, if_neg hxy] at hab
          by_cases hyz : y.toNat ≠ 0 ∧ y = z
          · simp only [strcmp, if_pos hyz] at hbc
            obtain ⟨hy0, rfl⟩ := hyz
            simp only [strcmp, if_neg hxy]
            exact hab
          · simp only [strcmp, if_neg hyz] at hbc
            by_cases hxz : x.toNat ≠ 0 ∧ x = z
            · exfalso
              obtain ⟨hx0, rfl⟩ := hxz
              have hxy2 : x.toNat = y.toNat := by omega
              exact hxy ⟨hx0, toNat_eq_imp_eq _ _ hxy2⟩
            · simp only [strcmp, if_neg hxz]
              omega

theorem service_comparator_consistent : ConsistentComparator service_comparator := by
  constructor
  · intro a b
    unfold service_comparator
    have := strcmp_swap a.ordering_prefix b.ordering_prefix
    omega
  · intro a b c hab hbc
    exact strcmp_le_trans _ _ _ hab hbc

/-- On C strings, `strcmp` returns 0 exactly on equal strings. -/
theorem strcmp_eq_zero_iff (a b : List Char) (ha : IsCString a) (hb : IsCString b) :
    strcmp a b = 0 ↔ a = b := by
  induction a generalizing b with
  | nil =>
    cases b with
    | nil => simp [strcmp]
    | cons y ys =>
      have hy : y.toNat ≠ 0 := hb y (List.mem_cons_self _ _)
      simp only [strcmp]
      constructor
      · intro h; omega
      · intro h; exact absurd h (by simp)
  | cons x xs ih =>
    have hx : x.toNat ≠ 0 := ha x (List.mem_cons_self _ _)
    cases b with
    | nil =>
      simp only [strcmp]
      constructor
      · intro h; omega
      · intro h; exact absurd h (by simp)
    | cons y ys =>
      by_cases hxy : x = y
      · subst hxy
        have hc : x.toNat ≠ 0 ∧ x = x := ⟨hx, rfl⟩
        rw [strcmp, if_pos hc]
        simp only [List.cons.injEq, true_and]
        exact ih ys (fun c hc => ha c (List.mem_cons_of_mem _ hc))
          (fun c hc => hb c (List.mem_cons_of_mem _ hc))
      · have hc : ¬ (x.toNat ≠ 0 ∧ x = y) := fun h => hxy h.2
        have hne : x.toNat ≠ y.toNat := fun h => hxy (toNat_eq_imp_eq _ _ h)
        rw [strcmp, if_neg hc]
        simp only [List.cons.injEq, hxy, false_and, iff_false]
        omega

/-! ## Conforming `qsort` functions -/

theorem insertion_qsort_contract : QsortContract insertion_qsort := by
  intro cmp l
  refine ⟨List.perm_insertionSort _ l, fun hcmp => ?_⟩
  haveI : IsTotal service_info_t (fun a b => cmp a b ≤ 0) := ⟨hcmp.1⟩
  haveI : IsTrans service_info_t (fun a b => cmp a b ≤ 0) := ⟨hcmp.2⟩
  exact List.sorted_insertionSort (fun a b => cmp a b ≤ 0) l

theorem backwards_qsort_contract : QsortContract backwards_qsort := by
  intro cmp l
  refine ⟨(List.perm_insertionSort _ l.reverse).trans (List.reverse_perm l), fun hcmp => ?_⟩
  haveI : IsTotal service_info_t (fun a b => cmp a b ≤ 0) := ⟨hcmp.1⟩
  haveI : IsTrans service_info_t (fun a b => cmp a b ≤ 0) := ⟨hcmp.2⟩
  exact List.sorted_insertionSort (fun a b => cmp a b ≤ 0) l.reverse

/-! ## Discovery -/

/-- The content of `*info` before the call matters neither for the returned value nor,
when the filename is matched, for the content afterwards. -/
theorem parse_service_filename_info_irrelevant (filename : List Char) (r : Int)
    (i1 i2 : service_info_t) :
    (parse_service_filename filename r i1).1 = (parse_service_filename filename r i2).1 ∧
    ((parse_service_filename filename r i1).1 = 1 →
      (parse_service_filename filename r i1).2 = (parse_service_filename filename r i2).2) := by
  unfold parse_service_filename
  cases hloop : parse_loop r filename 0 [] with
  | ret v =>
    have hv := parse_loop_ret r filename 0 [] v hloop
    subst hv
    simp
  | done p f op =>
    cases p with
    | nil => simp
    | cons c p1 =>
      by_cases hc : c ≠ '-'
      · simp [hc]
      · cases p1 with
        | nil => simp [hc]
        | cons d ds =>
          by_cases hf : f ≠ 0
          · simp [hc, hf]
          · simp [hc, hf]

theorem matchedEntries_cons (r : Int) (d : List Char) (rest : List (List Char)) :
    matchedEntries r (d :: rest) =
      if d = ".".toList ∨ d = "..".toList then matchedEntries r rest
      else if (parse_service_filename d r blank_info).1 = 1 then
        (parse_service_filename d r blank_info).2 :: matchedEntries r rest
      else matchedEntries r rest := by
  unfold matchedEntries
  by_cases hskip : d = ".".toList ∨ d = "..".toList
  · have hdrop : ¬ (decide (d ≠ ".".toList ∧ d ≠ "..".toList) = true) := by
      rw [decide_eq_true_eq]
      tauto
    rw [if_pos hskip, List.filter_cons, if_neg hdrop]
  · have hkeep : decide (d ≠ ".".toList ∧ d ≠ "..".toList) = true := by
      rw [decide_eq_true_eq]
      tauto
    rw [if_neg hskip, List.filter_cons, if_pos hkeep, List.filterMap_cons]
    by_cases hm : (parse_service_filename d r blank_info).1 = 1
    · simp only [hm, if_true]
    · simp only [hm, if_false]

theorem scan_directory_ok (env : DiscoverEnv) (r : Int) (entries : List (List Char))
    (services : service_list_t) (hrealloc : ∀ n, env.realloc_ok n = true)
    (hnames : ∀ d ∈ entries, IsCString d) :
    (scan_directory env r entries services).1 = 0 ∧
    (scan_directory env r entries services).2.services =
      services.services ++ matchedEntries r entries := by
  induction entries generalizing services with
  | nil => simp [scan_directory, matchedEntries]
  | cons d rest ih =>
    have hd : IsCString d := hnames d (List.mem_cons_self _ _)
    have hrest : ∀ e ∈ rest, IsCString e := fun e he => hnames e (List.mem_cons_of_mem _ he)
    have hdot : strcmp d ".".toList = 0 ↔ d = ".".toList :=
      strcmp_eq_zero_iff d _ hd (by intro c hc; revert c; decide)
    have hdotdot : strcmp d "..".toList = 0 ↔ d = "..".toList :=
      strcmp_eq_zero_iff d _ hd (by intro c hc; revert c; decide)
    rw [scan_directory, matchedEntries_cons]
    by_cases hskip : d = ".".toList ∨ d = "..".toList
    · rw [if_pos (by rw [hdot, hdotdot]; exact hskip), if_pos hskip]
      exact ih services hrest
    · rw [if_neg (by rw [hdot, hdotdot]; exact hskip), if_neg hskip]
      have hirr := parse_service_filename_info_irrelevant d r env.info0 blank_info
      by_cases hm : (parse_service_filename d r env.info0).1 = 1
      · have hm2 : (parse_service_filename d r blank_info).1 = 1 := hirr.1 ▸ hm
        simp only [hm, hm2, if_true]
        have hadd : (add_service env services (parse_service_filename d r env.info0).2).1 = 0 ∧
            (add_service env services (parse_service_filename d r env.info0).2).2.services =
              services.services ++ [(parse_service_filename d r env.info0).2] := by
          unfold add_service
          split
          · simp [hrealloc]
          · simp
        have hnot : ¬ (add_service env services (parse_service_filename d r env.info0).2).1 < 0 := by
          rw [hadd.1]; decide
        rw [if_neg hnot, ← hirr.2 hm]
        have := ih (add_service env services (parse_service_filename d r env.info0).2).2 hrest
        rw [hadd.2] at this
        simpa using this
      · have hm2 : ¬ (parse_service_filename d r blank_info).1 = 1 := hirr.1 ▸ hm
        simp only [hm, hm2, if_false]
        exact ih services hrest

theorem sort_services_perm_ascending (qsort : Qsort) (hqsort : QsortContract qsort)
    (services : service_list_t) :
    (sort_services qsort services).services.Perm services.services ∧
    KeysAscending (sort_services qsort services).services := by
  unfold sort_services
  split
  · exact ⟨(hqsort service_comparator _).1,
      (hqsort service_comparator _).2 service_comparator_consistent⟩
  · rename_i hcount
    refine ⟨List.Perm.refl _, ?_⟩
    unfold service_list_t.count at hcount
    unfold KeysAscending
    match hl : services.services with
    | [] => exact List.Pairwise.nil
    | [a] => exact List.pairwise_singleton _ a
    | a :: b :: l =>
      rw [hl] at hcount
      simp at hcount

theorem discover_services_ok (env : DiscoverEnv) (qsort : Qsort) (r : Int)
    (services : service_list_t) (entries : List (List Char))
    (hmalloc : env.malloc_ok = true) (hrealloc : ∀ n, env.realloc_ok n = true)
    (hdir : env.opendir = some entries) (hnames : ∀ d ∈ entries, IsCString d) :
    discover_services env qsort r services =
      (0, sort_services qsort
        (scan_directory env r entries { services := [], capacity := INITIAL_CAPACITY }).2) ∧
    (scan_directory env r entries { services := [], capacity := INITIAL_CAPACITY }).2.services
      = matchedEntries r entries := by
  have hscan := scan_directory_ok env r entries { services := [], capacity := INITIAL_CAPACITY }
    hrealloc hnames
  refine ⟨?_, by simpa using hscan.2⟩
  unfold discover_services init_service_list
  simp only [hmalloc, hdir]
  simp [hscan.1]

theorem parse_1a_alpha (info : service_info_t) :
    parse_service_filename "1a-alpha".toList 1 info = (1, alpha_entry) := by
  simp [parse_service_filename, parse_loop, skip_alpha, digitValue, strncpy, full_path_of,
    INITS_DIR, alpha_entry]

theorem parse_1a_gamma (info : service_info_t) :
    parse_service_filename "1a-gamma".toList 1 info = (1, gamma_entry) := by
  simp [parse_service_filename, parse_loop, skip_alpha, digitValue, strncpy, full_path_of,
    INITS_DIR, gamma_entry]

/-! ## Claims about the catalog -/

/-- The C standard alone does not make `sort_services` stable: with this conforming
`qsort`, two entries whose ordering prefix is the same are exchanged. -/
theorem sort_services_exchanges_equal_keys :
    QsortContract backwards_qsort ∧
    alpha_entry.ordering_prefix = gamma_entry.ordering_prefix ∧
    (sort_services backwards_qsort
      { services := [alpha_entry, gamma_entry], capacity := 16 }).services
        = [gamma_entry, alpha_entry] ∧
    [gamma_entry, alpha_entry] ≠ [alpha_entry, gamma_entry] :=
  ⟨backwards_qsort_contract, by decide, by decide, by decide⟩

/-- With a `qsort` that honours the C standard, `sort_services` leaves a permutation of
the catalog whose ordering prefixes ascend under `strcmp`. -/
theorem sort_services_sorted_permutation (qsort : Qsort) (services : service_list_t)
    (hqsort : QsortContract qsort) :
    (sort_services qsort services).services.Perm services.services ∧
    KeysAscending (sort_services qsort services).services :=
  sort_services_perm_ascending qsort hqsort services

/-- The catalog `[beta, alpha, gamma]` under insertion sort. -/
theorem sort_services_sorted_permutation_witness :
    QsortContract insertion_qsort ∧
    (sort_services insertion_qsort
      { services := [beta_entry, alpha_entry, gamma_entry], capacity := 16 }).services.Perm
        [beta_entry, alpha_entry, gamma_entry] ∧
    KeysAscending (sort_services insertion_qsort
      { services := [beta_entry, alpha_entry, gamma_entry], capacity := 16 }).services :=
  ⟨insertion_qsort_contract,
    sort_services_sorted_permutation insertion_qsort
      { services := [beta_entry, alpha_entry, gamma_entry], capacity := 16 }
      insertion_qsort_contract⟩

theorem strcmp_self (a : List Char) : strcmp a a = 0 := by
  induction a with
  | nil => rfl
  | cons x xs ih =>
    by_cases hx : x.toNat ≠ 0 ∧ x = x
    · rw [strcmp, if_pos hx]
      exact ih
    · rw [strcmp, if_neg hx]
      omega

/-- Inserting an element into a list does not disturb the order of the elements that
compare equal to a given one: the inserted element comes in front of them. -/
theorem filter_orderedInsert (cmp : service_info_t → service_info_t → Int)
    (hcmp : ConsistentComparator cmp) (a x : service_info_t) (l : List service_info_t) :
    (l.orderedInsert (fun u v => cmp u v ≤ 0) x).filter
        (fun b => decide (cmp a b ≤ 0 ∧ cmp b a ≤ 0)) =
      (x :: l).filter (fun b => decide (cmp a b ≤ 0 ∧ cmp b a ≤ 0)) := by
  induction l with
  | nil => rfl
  | cons b rest ih =>
    by_cases hxb : cmp x b ≤ 0
    · simp only [List.orderedInsert, if_pos hxb]
    · simp only [List.orderedInsert, if_neg hxb]
      by_cases hb : cmp a b ≤ 0 ∧ cmp b a ≤ 0
      · have hx : ¬ (cmp a x ≤ 0 ∧ cmp x a ≤ 0) := fun hx =>
          hxb (hcmp.2 x a b hx.2 hb.1)
        rw [List.filter_cons_of_pos (by simpa using hb), ih,
          List.filter_cons_of_neg (by simpa using hx),
          List.filter_cons_of_neg (by simpa using hx),
          List.filter_cons_of_pos (by simpa using hb)]
      · rw [List.filter_cons_of_neg (by simpa using hb), ih]
        by_cases hx : cmp a x ≤ 0 ∧ cmp x a ≤ 0
        · rw [List.filter_cons_of_pos (by simpa using hx),
            List.filter_cons_of_pos (by simpa using hx),
            List.filter_cons_of_neg (by simpa using hb)]
        · rw [List.filter_cons_of_neg (by simpa using hx),
            List.filter_cons_of_neg (by simpa using hx),
            List.filter_cons_of_neg (by simpa using hb)]

theorem insertion_qsort_stable : StableQsort insertion_qsort := by
  intro cmp l hcmp a
  unfold insertion_qsort
  induction l with
  | nil => rfl
  | cons x rest ih =>
    rw [List.insertionSort, filter_orderedInsert cmp hcmp a x]
    by_cases hx : cmp a x ≤ 0 ∧ cmp x a ≤ 0
    · rw [List.filter_cons_of_pos (by simpa using hx),
        List.filter_cons_of_pos (by simpa using hx), ih]
    · rw [List.filter_cons_of_neg (by simpa using hx),
        List.filter_cons_of_neg (by simpa using hx), ih]

theorem parse_1b_beta (info : service_info_t) :
    parse_service_filename "1b-beta".toList 1 info = (1, beta_one_entry) := by
  simp [parse_service_filename, parse_loop, skip_alpha, digitValue, strncpy, full_path_of,
    INITS_DIR, beta_one_entry]

theorem parse_1b_delta (info : service_info_t) :
    parse_service_filename "1b-delta".toList 1 info = (1, delta_entry) := by
  simp [parse_service_filename, parse_loop, skip_alpha, digitValue, strncpy, full_path_of,
    INITS_DIR, delta_entry]

/-- With a stable `qsort`, the entries of each ordering prefix keep their order. -/
theorem sort_services_keeps_key_order (qsort : Qsort) (hstable : StableQsort qsort)
    (services : service_list_t) (key : List Char) :
    entriesWithKey key (sort_services qsort services).services =
      entriesWithKey key services.services := by
  unfold sort_services
  split
  · have hclass := hstable service_comparator services.services service_comparator_consistent
      { blank_info with ordering_prefix := key }
    have hsub : ∀ l : List service_info_t, entriesWithKey key l =
        entriesWithKey key (l.filter (fun b =>
          decide (service_comparator { blank_info with ordering_prefix := key } b ≤ 0 ∧
            service_comparator b { blank_info with ordering_prefix := key } ≤ 0))) := by
      intro l
      unfold entriesWithKey
      rw [List.filter_filter]
      apply List.filter_congr
      intro b _
      by_cases hb : b.ordering_prefix = key
      · simp [hb, service_comparator, strcmp_self]
      · simp [hb]
    show entriesWithKey key (qsort services.services service_comparator) = _
    rw [hsub (qsort services.services service_comparator), hclass, ← hsub]
  · rfl

/-- C6 (counterexample): the directory lists `1b-beta`, `1b-delta`, `1a-alpha`, all matched
for runlevel 1, and `qsort` cannot allocate the buffer of its merge sort, so that glibc
sorts in place. `sort_services` leaves `[1a-alpha, 1b-delta, 1b-beta]`: the two entries
with the ordering prefix `b` are exchanged. -/
theorem sort_services_in_place_exchanges_equal_keys :
    beta_one_entry.ordering_prefix = delta_entry.ordering_prefix ∧
    (∀ partition : Qsort,
      (sort_services (glibc_quicksort partition)
        { services := [beta_one_entry, delta_entry, alpha_entry], capacity := 16 }).services
          = [alpha_entry, delta_entry, beta_one_entry]) ∧
    entriesWithKey "b".toList [beta_one_entry, delta_entry, alpha_entry]
      = [beta_one_entry, delta_entry] ∧
    entriesWithKey "b".toList [alpha_entry, delta_entry, beta_one_entry]
      = [delta_entry, beta_one_entry] := by
  refine ⟨by decide, fun partition => ?_, by decide, by decide⟩
  rfl

/-- C6 (as amended): `sort_services` leaves a permutation of the catalog whose ordering
prefixes ascend under `strcmp`, and it is stable when the `qsort` of the C library is:
with a `qsort` that keeps the order of elements that compare equal, the entries with an
identical ordering prefix appear after the sort in the order in which they were before
it. -/
theorem sort_services_stable_with_stable_qsort (qsort : Qsort) (services : service_list_t)
    (hqsort : QsortContract qsort) :
    (sort_services qsort services).services.Perm services.services ∧
    KeysAscending (sort_services qsort services).services ∧
    (StableQsort qsort → ∀ key : List Char,
      entriesWithKey key (sort_services qsort services).services =
        entriesWithKey key services.services) :=
  ⟨(sort_services_perm_ascending qsort hqsort services).1,
    (sort_services_perm_ascending qsort hqsort services).2,
    fun hstable key => sort_services_keeps_key_order qsort hstable services key⟩

/-- C6 (witness): the catalog `[beta, delta, alpha, gamma]` under a stable `qsort`: after
the sort `alpha` still precedes `gamma` and `beta` still precedes `delta`. -/
theorem sort_services_stable_with_stable_qsort_witness :
    QsortContract insertion_qsort ∧ StableQsort insertion_qsort ∧
    (sort_services insertion_qsort
      { services := [beta_one_entry, delta_entry, alpha_entry, gamma_entry],
        capacity := 16 }).services
      = [alpha_entry, gamma_entry, beta_one_entry, delta_entry] ∧
    entriesWithKey "b".toList (sort_services insertion_qsort
      { services := [beta_one_entry, delta_entry, alpha_entry, gamma_entry],
        capacity := 16 }).services
      = entriesWithKey "b".toList [beta_one_entry, delta_entry, alpha_entry, gamma_entry] :=
  ⟨insertion_qsort_contract, insertion_qsort_stable, by decide,
    (sort_services_stable_with_stable_qsort insertion_qsort
      { services := [beta_one_entry, delta_entry, alpha_entry, gamma_entry], capacity := 16 }
      insertion_qsort_contract).2.2 insertion_qsort_stable "b".toList⟩

theorem parse_10a_alpha (r : Int) (info : service_info_t) :
    parse_service_filename "10a-alpha".toList r info = (-1, info) := by
  simp [parse_service_filename, parse_loop, skip_alpha]

theorem parse_10a_gamma (r : Int) (info : service_info_t) :
    parse_service_filename "10a-gamma".toList r info = (-1, info) := by
  simp [parse_service_filename, parse_loop, skip_alpha]

theorem parse_2b_beta (r : Int) (info : service_info_t) :
    parse_service_filename "2b-beta".toList r info =
      if r = 2 then (1, { beta_entry with runlevel := r }) else (0, info) := by
  by_cases h : r = 2
  · subst h
    simp [parse_service_filename, parse_loop, skip_alpha, digitValue, strncpy, full_path_of,
      INITS_DIR, beta_entry]
  · have h2 : ¬ (2 : Int) = r := fun e => h e.symm
    simp [parse_service_filename, parse_loop, skip_alpha, digitValue, h, h2]

theorem matchedEntries_scenario (r : Int) :
    matchedEntries r scenario_entries = if r = 2 then [beta_entry] else [] := by
  unfold scenario_entries
  rw [matchedEntries_cons, matchedEntries_cons, matchedEntries_cons, parse_10a_alpha,
    parse_10a_gamma, parse_2b_beta]
  by_cases h : r = 2
  · subst h
    simp [matchedEntries, beta_entry]
  · simp [matchedEntries, h]

/-- C7 (counterexample): no runlevel is matched by all three names of the scenario;
`10a-alpha` is not even matched by any. -/
theorem scenario_never_all_matched :
    (¬ ∃ r : Int, (parse_service_filename "10a-alpha".toList r blank_info).1 = 1) ∧
    (¬ ∃ r : Int, (parse_service_filename "10a-alpha".toList r blank_info).1 = 1 ∧
      (parse_service_filename "2b-beta".toList r blank_info).1 = 1 ∧
      (parse_service_filename "10a-gamma".toList r blank_info).1 = 1) := by
  constructor
  · rintro ⟨r, h⟩
    rw [parse_10a_alpha] at h
    exact absurd h (by decide)
  · rintro ⟨r, h, _⟩
    rw [parse_10a_alpha] at h
    exact absurd h (by decide)

/-- C7 (as amended): in the directory `10a-alpha`, `2b-beta`, `10a-gamma` the parser
rejects `10a-alpha` and `10a-gamma` for every runlevel and matches `2b-beta` exactly for
runlevel 2, with ordering key `b`; discovery succeeds, and the catalog is `[2b-beta]` for
runlevel 2 and empty for every other runlevel. -/
theorem discover_services_scenario (qsort : Qsort) (r : Int) (services : service_list_t) :
    (parse_service_filename "10a-alpha".toList r blank_info).1 = -1 ∧
    (parse_service_filename "10a-gamma".toList r blank_info).1 = -1 ∧
    ((parse_service_filename "2b-beta".toList r blank_info).1 = 1 ↔ r = 2) ∧
    service_info_t.ordering_prefix (parse_service_filename "2b-beta".toList 2 blank_info).2
      = "b".toList ∧
    (discover_services (listing scenario_entries) qsort r services).1 = 0 ∧
    (discover_services (listing scenario_entries) qsort 2 services).2.services = [beta_entry] ∧
    (r ≠ 2 → (discover_services (listing scenario_entries) qsort r services).2.services = []) := by
  have hnames : ∀ d ∈ scenario_entries, IsCString d := by unfold IsCString; decide
  have hdisc : ∀ q : Int, (discover_services (listing scenario_entries) qsort q services).1 = 0 ∧
      (discover_services (listing scenario_entries) qsort q services).2.services =
        if q = 2 then [beta_entry] else [] := by
    intro q
    obtain ⟨hres, hscan⟩ := discover_services_ok (listing scenario_entries) qsort q services
      scenario_entries rfl (fun _ => rfl) rfl hnames
    rw [matchedEntries_scenario] at hscan
    rw [hres]
    refine ⟨rfl, ?_⟩
    simp only [sort_services, service_list_t.count, hscan]
    by_cases hq : q = 2
    · subst hq
      simpa using hscan
    · simp only [hq, if_false] at hscan ⊢
      simpa using hscan
  refine ⟨by rw [parse_10a_alpha], by rw [parse_10a_gamma], ?_, ?_, (hdisc r).1, ?_, ?_⟩
  · rw [parse_2b_beta]
    by_cases h : r = 2
    · simp [h]
    · simp [h]
  · rw [parse_2b_beta]
    simp [beta_entry]
  · rw [(hdisc 2).2]
    simp
  · intro h
    rw [(hdisc r).2, if_neg h]

/-- C7 (witness): the scenario at runlevel 3, where the catalog is empty. -/
theorem discover_services_scenario_witness :
    (3 : Int) ≠ 2 ∧
    (discover_services (listing scenario_entries) backwards_qsort 3
      { services := [], capacity := 0 }).2.services = [] :=
  ⟨by decide,
    (discover_services_scenario backwards_qsort 3 { services := [], capacity := 0 }).2.2.2.2.2.2
      (by decide)⟩

/-! ## The service loop -/

theorem launched_append (a b : List Event) : launched (a ++ b) = launched a ++ launched b := by
  simp [launched, List.filterMap_append]

theorem shutdown_invocations_append (a b : List Event) :
    shutdown_invocations (a ++ b) = shutdown_invocations a + shutdown_invocations b := by
  simp [shutdown_invocations, List.count_append]

/-- One iteration of the loop in the orchestrator, with the flag not set: what it adds in
front of the trace of the later iterations. -/
theorem run_services_step (env : RunEnv) (i : Nat) (service : service_info_t)
    (rest : List service_info_t) (hflag : shutdown_requested env i = false)
    (hparent : env.fork i ≠ 0) :
    ∃ pre : List Event,
      run_services env i (service :: rest) =
        ((run_services env (i + 1) rest).1, pre ++ (run_services env (i + 1) rest).2) ∧
      launched pre = [service.name] ∧ shutdown_invocations pre = 0 ∧
      (0 < env.fork i → Event.waitpid (env.fork i) ∈ pre ∧
        (0 ≤ (env.waitpid i (env.fork i)).1 →
          Event.log_service_complete service.name
            (wait_for_service (env.waitpid i (env.fork i)) (env.fork i) env.exit_status0).2.1
              ∈ pre)) := by
  rw [run_services]
  simp only [hflag, Bool.false_eq_true, if_false]
  by_cases hneg : env.fork i < 0
  · refine ⟨[.log_service_start service.name, .fork,
      .log_message "[ERROR] Failed to fork process for service %s",
      .log_message "[ERROR] Failed to execute service %s"], ?_, ?_, ?_, ?_⟩
    · simp [execute_service, hneg]
    · simp [launched]
    · simp [shutdown_invocations]
    · intro hpos; omega
  · have hpos : 0 < env.fork i := by omega
    simp only [execute_service, hneg, hparent, if_false]
    by_cases hwait : (env.waitpid i (env.fork i)).1 < 0
    · refine ⟨[.log_service_start service.name, .fork, .waitpid (env.fork i),
        .log_message "[ERROR] Failed to wait for process %d",
        .log_message "[ERROR] Failed to wait for service %s"], ?_, ?_, ?_, ?_⟩
      · simp [wait_for_service, hwait]
      · simp [launched]
      · simp [shutdown_invocations]
      · intro _
        refine ⟨by simp, fun h => ?_⟩
        omega
    · have hret : (wait_for_service (env.waitpid i (env.fork i)) (env.fork i)
          env.exit_status0).1 = 0 := by
        unfold wait_for_service
        simp only [hwait, if_false]
        split
        · rfl
        · split <;> rfl
      have hev : (wait_for_service (env.waitpid i (env.fork i)) (env.fork i)
          env.exit_status0).2.2 = [.waitpid (env.fork i)] := by
        unfold wait_for_service
        simp only [hwait, if_false]
        split
        · rfl
        · split <;> rfl
      refine ⟨[.log_service_start service.name, .fork, .waitpid (env.fork i),
        .log_service_complete service.name
          (wait_for_service (env.waitpid i (env.fork i)) (env.fork i) env.exit_status0).2.1],
        ?_, ?_, ?_, ?_⟩
      · simp [hret, hev]
      · simp [launched]
      · simp [shutdown_invocations]
      · intro _
        exact ⟨by simp, fun _ => by simp⟩

theorem shutdown_requested_mono (env : RunEnv) (i j : Nat) (hij : i ≤ j)
    (h : shutdown_requested env j = false) : shutdown_requested env i = false := by
  unfold shutdown_requested at h ⊢
  cases hs : env.signal with
  | none => rfl
  | some t =>
    rw [hs] at h
    simp only [decide_eq_false_iff_not] at h ⊢
    omega

theorem run_services_alive (env : RunEnv) (hparent : ∀ k, env.fork k ≠ 0) (j : Nat)
    (rest : List service_info_t) : (run_services env j rest).1 = true := by
  induction rest generalizing j with
  | nil => rfl
  | cons service rest ih =>
    cases hflag : shutdown_requested env j with
    | true => simp [run_services, hflag]
    | false =>
      obtain ⟨pre, hrun, _⟩ := run_services_step env j service rest hflag (hparent j)
      rw [hrun]
      exact ih (j + 1)

theorem run_services_no_shutdown (env : RunEnv) (hparent : ∀ k, env.fork k ≠ 0) (j : Nat)
    (rest : List service_info_t) : shutdown_invocations (run_services env j rest).2 = 0 := by
  induction rest generalizing j with
  | nil => rfl
  | cons service rest ih =>
    cases hflag : shutdown_requested env j with
    | true => simp [run_services, hflag, shutdown_invocations]
    | false =>
      obtain ⟨pre, hrun, _, hpre, _⟩ := run_services_step env j service rest hflag (hparent j)
      rw [hrun, shutdown_invocations_append, hpre, ih (j + 1)]

/-- With the flag set before read `t`, the loop started at iteration `j` launches the
next `t - j` entries and no other. -/
theorem run_services_launched (env : RunEnv) (hparent : ∀ k, env.fork k ≠ 0) (t : Nat)
    (hsignal : env.signal = some t) (j : Nat) (rest : List service_info_t) :
    launched (run_services env j rest).2 = (rest.take (t - j)).map service_info_t.name := by
  induction rest generalizing j with
  | nil => simp [run_services, launched]
  | cons service rest ih =>
    cases hflag : shutdown_requested env j with
    | true =>
      have htj : t ≤ j := by
        simpa [shutdown_requested, hsignal] using hflag
      have h0 : t - j = 0 := by omega
      simp [run_services, hflag, launched, h0]
    | false =>
      have htj : j < t := by
        have : ¬ t ≤ j := by simpa [shutdown_requested, hsignal] using hflag
        omega
      obtain ⟨pre, hrun, hpre, _⟩ := run_services_step env j service rest hflag (hparent j)
      have hsucc : t - j = (t - (j + 1)) + 1 := by omega
      rw [hrun, launched_append, hpre, ih (j + 1), hsucc, List.take_succ_cons]
      simp

/-- An entry whose iteration finds the flag not set and whose launch succeeds is waited
for by its pid, and its completion is logged when the wait succeeds. -/
theorem run_services_reaped (env : RunEnv) (hparent : ∀ k, env.fork k ≠ 0) (j k : Nat)
    (rest : List service_info_t) (service : service_info_t)
    (hservice : rest[k]? = some service)
    (hflag : shutdown_requested env (j + k) = false) (hlaunch : 0 < env.fork (j + k)) :
    Event.waitpid (env.fork (j + k)) ∈ (run_services env j rest).2 ∧
    (0 ≤ (env.waitpid (j + k) (env.fork (j + k))).1 →
      Event.log_service_complete service.name
        (wait_for_service (env.waitpid (j + k) (env.fork (j + k))) (env.fork (j + k))
          env.exit_status0).2.1 ∈ (run_services env j rest).2) := by
  induction rest generalizing j k with
  | nil => simp at hservice
  | cons first rest ih =>
    have hflagj : shutdown_requested env j = false :=
      shutdown_requested_mono env j (j + k) (by omega) hflag
    obtain ⟨pre, hrun, _, _, hpre⟩ := run_services_step env j first rest hflagj (hparent j)
    rw [hrun]
    cases k with
    | zero =>
      simp only [List.getElem?_cons_zero, Option.some.injEq] at hservice
      subst hservice
      have := hpre hlaunch
      exact ⟨List.mem_append_left _ this.1, fun h => List.mem_append_left _ (this.2 h)⟩
    | succ k =>
      simp only [List.getElem?_cons_succ] at hservice
      have hidx : j + (k + 1) = (j + 1) + k := by omega
      rw [hidx] at hflag hlaunch ⊢
      have := ih (j + 1) k hservice hflag hlaunch
      exact ⟨List.mem_append_right _ this.1, fun h => List.mem_append_right _ (this.2 h)⟩

/-! ## The end of `main` -/

theorem shutdown_system_invocations (kill_result : Int → Int) :
    shutdown_invocations (shutdown_system kill_result).2 = 1 ∧
    launched (shutdown_system kill_result).2 = [] := by
  unfold shutdown_system send_signal_to_all
  by_cases h1 : kill_result SIGTERM < 0 <;> by_cases h2 : kill_result SIGKILL < 0 <;>
    simp [h1, h2, shutdown_invocations, launched]

theorem main_shutdown_invocations (env : RunEnv) (runlevel : Int) (count : Nat) :
    shutdown_invocations (main_shutdown env runlevel count).2 =
      (if runlevel = 0 ∨ runlevel = 6 then 1 else 0) +
        (if shutdown_requested env count = true then 1 else 0) ∧
    launched (main_shutdown env runlevel count).2 = [] := by
  have h0 := shutdown_system_invocations (env.kill 0)
  have h1 := shutdown_system_invocations (env.kill 1)
  have hret : ∀ k, ¬ (shutdown_system k).1 < 0 := by
    intro k
    simp [shutdown_system]
  have hnil : shutdown_invocations [] = 0 ∧ launched [] = [] := ⟨rfl, rfl⟩
  have e1 : shutdown_invocations
      [.log_message "[INFO] Runlevel %d initialization complete"] = 0 ∧
      launched [.log_message "[INFO] Runlevel %d initialization complete"] = [] := by decide
  have e2 : shutdown_invocations
      [.log_message "[INFO] Runlevel %d detected, initiating shutdown sequence"] = 0 ∧
      launched [.log_message "[INFO] Runlevel %d detected, initiating shutdown sequence"] = [] := by
    decide
  have e3 : shutdown_invocations
      [.log_message "[INFO] Performing graceful shutdown due to signal"] = 0 ∧
      launched [.log_message "[INFO] Performing graceful shutdown due to signal"] = [] := by
    decide
  unfold main_shutdown
  by_cases ht : runlevel = 0 ∨ runlevel = 6 <;>
    cases hf : shutdown_requested env count <;>
    simp only [ht, hret, if_true, if_false, Bool.false_eq_true, shutdown_invocations_append,
      launched_append, h0.1, h0.2, h1.1, h1.2, e1.1, e1.2, e2.1, e2.2, e3.1, e3.2, hnil.1,
      hnil.2, List.append_nil, List.nil_append, and_self, Nat.add_zero, Nat.zero_add]

/-- A run of the orchestrator that gets past initialisation and discovery enters
`shutdown_system` once for a terminal runlevel and once for the flag. -/
theorem main_shutdown_count (env : RunEnv) (runlevel : Int) (catalog : service_list_t)
    (hrunlevel : 0 ≤ runlevel) (hparent : ∀ k, env.fork k ≠ 0) :
    shutdown_invocations (main env runlevel (0, catalog)).2 =
      (if runlevel = 0 ∨ runlevel = 6 then 1 else 0) +
        (if shutdown_requested env catalog.count = true then 1 else 0) := by
  have hr : ¬ runlevel < 0 := by omega
  have hmain : (main env runlevel (0, catalog)).2 =
      (run_services env 0 catalog.services).2 ++
        (main_shutdown env runlevel catalog.count).2 := by
    simp [main, hr, run_services_alive env hparent]
  rw [hmain, shutdown_invocations_append, run_services_no_shutdown env hparent,
    (main_shutdown_invocations env runlevel catalog.count).1, Nat.zero_add]

/-! ## Claims about the orchestrator and the execution engine -/

/-- C8 (the code at the failing input): at runlevel 0 with the termination signal
delivered, `main` runs to its end with exit code 0 and enters `shutdown_system` twice,
once at line 190 and once at line 199; the same happens at runlevel 6. -/
theorem main_terminal_runlevel_with_signal_shuts_down_twice :
    (main (quiet_run (some 0)) 0 (0, { services := [], capacity := 16 })).1 = some 0 ∧
    shutdown_invocations
      (main (quiet_run (some 0)) 0 (0, { services := [], capacity := 16 })).2 = 2 ∧
    shutdown_invocations
      (main (quiet_run (some 0)) 6 (0, { services := [], capacity := 16 })).2 = 2 ∧
    shutdown_invocations
      (main (quiet_run none) 0 (0, { services := [], capacity := 16 })).2 = 1 ∧
    shutdown_invocations
      (main (quiet_run (some 0)) 3 (0, { services := [], capacity := 16 })).2 = 1 := by
  decide

/-- C9 (the code at the failing inputs): the signal arrives while the only service,
`alpha`, is in flight. The handler is installed without `SA_RESTART` (main.c 54-56), so
the `waitpid` the orchestrator is blocked in returns -1, and `wait_for_service` does not
try again: at runlevel 3 `alpha` is launched but no completion is logged. Where the wait
does succeed, at runlevel 6, the completion is logged but `shutdown_system` is entered
twice. -/
theorem signal_in_flight_not_as_claimed :
    (failing_wait_run (some 1)).signal = some (0 + 1) ∧
    0 < (failing_wait_run (some 1)).fork 0 ∧
    launched (main (failing_wait_run (some 1)) 3
      (0, { services := [alpha_entry], capacity := 16 })).2 = ["alpha".toList] ∧
    completed (main (failing_wait_run (some 1)) 3
      (0, { services := [alpha_entry], capacity := 16 })).2 = [] ∧
    completed (main (quiet_run (some 1)) 6
      (0, { services := [alpha_entry], capacity := 16 })).2 = ["alpha".toList] ∧
    shutdown_invocations (main (quiet_run (some 1)) 6
      (0, { services := [alpha_entry], capacity := 16 })).2 = 2 := by
  decide

/-- What the code does when the flag is set while service `i` of the catalog is in flight
(launched, and the signal arrives before the next read of the flag): the orchestrator
calls `waitpid` on the pid of service `i`, logs its completion if that call succeeds,
launches the services up to `i` and none after it, and, at a runlevel other than 0 and 6,
enters `shutdown_system` exactly once. -/
theorem main_signal_while_in_flight (env : RunEnv) (runlevel : Int) (catalog : service_list_t)
    (i : Nat) (service : service_info_t)
    (hrunlevel : 0 ≤ runlevel) (hparent : ∀ k, env.fork k ≠ 0)
    (hservice : catalog.services[i]? = some service)
    (hflight : 0 < env.fork i) (hsignal : env.signal = some (i + 1)) :
    Event.waitpid (env.fork i) ∈ (main env runlevel (0, catalog)).2 ∧
    (0 ≤ (env.waitpid i (env.fork i)).1 →
      Event.log_service_complete service.name
        (wait_for_service (env.waitpid i (env.fork i)) (env.fork i) env.exit_status0).2.1
          ∈ (main env runlevel (0, catalog)).2) ∧
    launched (main env runlevel (0, catalog)).2 =
      (catalog.services.take (i + 1)).map service_info_t.name ∧
    (runlevel ≠ 0 → runlevel ≠ 6 →
      shutdown_invocations (main env runlevel (0, catalog)).2 = 1) := by
  have hlt : i < catalog.services.length := by
    rcases Nat.lt_or_ge i catalog.services.length with h | h
    · exact h
    · rw [List.getElem?_eq_none h] at hservice
      exact absurd hservice (by simp)
  have hmain : (main env runlevel (0, catalog)).2 =
      (run_services env 0 catalog.services).2 ++
        (main_shutdown env runlevel catalog.count).2 := by
    have hr : ¬ runlevel < 0 := by omega
    simp [main, hr, run_services_alive env hparent]
  have hflag : shutdown_requested env (0 + i) = false := by
    simp [shutdown_requested, hsignal]
  have hidx : 0 + i = i := Nat.zero_add i
  have hreap := run_services_reaped env hparent 0 i catalog.services service hservice hflag
    (by rw [hidx]; exact hflight)
  rw [hidx] at hreap
  have hlaunched := run_services_launched env hparent (i + 1) hsignal 0 catalog.services
  have hend := main_shutdown_invocations env runlevel catalog.count
  have hset : shutdown_requested env catalog.count = true := by
    have : i + 1 ≤ catalog.count := hlt
    simp [shutdown_requested, hsignal, this]
  rw [hmain]
  refine ⟨List.mem_append_left _ hreap.1, fun h => List.mem_append_left _ (hreap.2 h), ?_, ?_⟩
  · rw [launched_append, hlaunched, hend.2]
    simp
  · intro h0 h6
    have hterm : ¬ (runlevel = 0 ∨ runlevel = 6) := fun h => h.elim h0 h6
    rw [shutdown_invocations_append, run_services_no_shutdown env hparent, hend.1, if_neg hterm,
      if_pos hset]

/-- The catalog `[alpha, gamma]` at runlevel 3, the signal arriving while `alpha` is in
flight and the wait succeeding all the same: only `alpha` is launched, and
`shutdown_system` is entered once. -/
theorem main_signal_while_in_flight_witness :
    (0 : Int) ≤ 3 ∧ (∀ k, (quiet_run (some 1)).fork k ≠ 0) ∧
    [alpha_entry, gamma_entry][0]? = some alpha_entry ∧
    0 < (quiet_run (some 1)).fork 0 ∧ (quiet_run (some 1)).signal = some (0 + 1) ∧
    launched (main (quiet_run (some 1)) 3
      (0, { services := [alpha_entry, gamma_entry], capacity := 16 })).2 =
        ([alpha_entry, gamma_entry].take (0 + 1)).map service_info_t.name ∧
    shutdown_invocations (main (quiet_run (some 1)) 3
      (0, { services := [alpha_entry, gamma_entry], capacity := 16 })).2 = 1 :=
  have hparent : ∀ k, (quiet_run (some 1)).fork k ≠ 0 := by
    intro k
    simp only [quiet_run]
    omega
  have h := main_signal_while_in_flight (quiet_run (some 1)) 3
    { services := [alpha_entry, gamma_entry], capacity := 16 } 0 alpha_entry
    (by decide) hparent rfl (by decide) rfl
  ⟨by decide, hparent, rfl, by decide, rfl, h.2.2.1, h.2.2.2 (by decide) (by decide)⟩

/-- C10: after a successful `waitpid`, `wait_for_service` returns 0 and stores the exit
code `N` of a child that exited normally, `128 + S` for a child terminated by signal `S`,
and `-1` for any other status; when `waitpid` fails it returns -1 and leaves
`*exit_status` as it was. -/
theorem wait_for_service_outcome (result pid exit_status : Int) (status : WaitStatus) :
    (0 ≤ result →
      (wait_for_service (result, status) pid exit_status).1 = 0 ∧
      (∀ N : Nat, status = .exited N →
        (wait_for_service (result, status) pid exit_status).2.1 = (N : Int)) ∧
      (∀ S : Nat, status = .signaled S →
        (wait_for_service (result, status) pid exit_status).2.1 = 128 + (S : Int)) ∧
      (status = .other → (wait_for_service (result, status) pid exit_status).2.1 = -1)) ∧
    (result < 0 →
      (wait_for_service (result, status) pid exit_status).1 = -1 ∧
      (wait_for_service (result, status) pid exit_status).2.1 = exit_status) := by
  constructor
  · intro hres
    have hnot : ¬ result < 0 := by omega
    cases status with
    | exited code => simp [wait_for_service, hnot, WIFEXITED, WEXITSTATUS]
    | signaled sig => simp [wait_for_service, hnot, WIFEXITED, WIFSIGNALED, WTERMSIG]
    | other => simp [wait_for_service, hnot, WIFEXITED, WIFSIGNALED]
  · intro hres
    simp [wait_for_service, hres]

/-- C10 (witness): a child killed by signal 9 yields 137; a failed `waitpid` leaves the
status 7 in place. -/
theorem wait_for_service_outcome_witness :
    ((0 : Int) ≤ 4242 ∧
      (wait_for_service (4242, .signaled 9) 4242 7).1 = 0 ∧
      (wait_for_service (4242, .signaled 9) 4242 7).2.1 = 128 + 9) ∧
    ((-1 : Int) < 0 ∧
      (wait_for_service (-1, .other) 4242 7).1 = -1 ∧
      (wait_for_service (-1, .other) 4242 7).2.1 = 7) :=
  ⟨⟨by decide,
      ((wait_for_service_outcome 4242 4242 7 (.signaled 9)).1 (by decide)).1,
      ((wait_for_service_outcome 4242 4242 7 (.signaled 9)).1 (by decide)).2.2.1 9 rfl⟩,
    ⟨by decide,
      ((wait_for_service_outcome (-1) 4242 7 .other).2 (by decide)).1,
      ((wait_for_service_outcome (-1) 4242 7 .other).2 (by decide)).2⟩⟩

/-- C11: whether the two broadcasts succeed or fail, `shutdown_system` returns 0 and its
signalling and waiting system calls are exactly `kill(-1, SIGTERM)`, `sleep(10)`,
`kill(-1, SIGKILL)`, `sleep(15)`, in this order. -/
theorem shutdown_system_sequence (kill_result : Int → Int) :
    (shutdown_system kill_result).1 = 0 ∧
    signals_and_sleeps (shutdown_system kill_result).2 =
      [.kill (-1) SIGTERM, .sleep 10, .kill (-1) SIGKILL, .sleep 15] := by
  refine ⟨rfl, ?_⟩
  unfold shutdown_system send_signal_to_all
  by_cases h1 : kill_result SIGTERM < 0 <;> by_cases h2 : kill_result SIGKILL < 0 <;>
    simp [h1, h2, signals_and_sleeps]

theorem schedule_append (a b : List Event) : schedule (a ++ b) = schedule a ++ schedule b := by
  simp [schedule, List.filter_append]

/-- One iteration of the loop in the orchestrator, with the flag not set: its launch and
reap actions, in front of those of the later iterations. -/
theorem run_services_step_schedule (env : RunEnv) (i : Nat) (service : service_info_t)
    (rest : List service_info_t) (hflag : shutdown_requested env i = false)
    (hparent : env.fork i ≠ 0) :
    schedule (run_services env i (service :: rest)).2 =
      [.log_service_start service.name, .fork] ++
        (if 0 < env.fork i then [.waitpid (env.fork i)] else []) ++
        schedule (run_services env (i + 1) rest).2 := by
  rw [run_services]
  simp only [hflag, Bool.false_eq_true, if_false]
  by_cases hneg : env.fork i < 0
  · have hpos : ¬ 0 < env.fork i := by omega
    simp [execute_service, hneg, hpos, schedule]
  · have hpos : 0 < env.fork i := by omega
    simp only [execute_service, hneg, hparent, if_false]
    by_cases hwait : (env.waitpid i (env.fork i)).1 < 0
    · simp [wait_for_service, hwait, hpos, schedule]
    · have hret : (wait_for_service (env.waitpid i (env.fork i)) (env.fork i)
          env.exit_status0).1 = 0 := by
        unfold wait_for_service
        simp only [hwait, if_false]
        split
        · rfl
        · split <;> rfl
      have hev : (wait_for_service (env.waitpid i (env.fork i)) (env.fork i)
          env.exit_status0).2.2 = [.waitpid (env.fork i)] := by
        unfold wait_for_service
        simp only [hwait, if_false]
        split
        · rfl
        · split <;> rfl
      simp [hret, hev, hpos, schedule]

theorem shutdown_requested_never (env : RunEnv) (hsignal : env.signal = none) (i : Nat) :
    shutdown_requested env i = false := by
  simp [shutdown_requested, hsignal]

/-- Without a signal, the loop started at iteration `j` performs the sequential schedule
of the entries that remain, and launches each of them. -/
theorem run_services_sequential (env : RunEnv) (hsignal : env.signal = none)
    (hparent : ∀ k, env.fork k ≠ 0) (j : Nat) (rest : List service_info_t) :
    schedule (run_services env j rest).2 = sequential_schedule env j rest ∧
    launched (run_services env j rest).2 = rest.map service_info_t.name := by
  induction rest generalizing j with
  | nil => simp [run_services, schedule, launched, sequential_schedule]
  | cons service rest ih =>
    have hflag := shutdown_requested_never env hsignal j
    obtain ⟨pre, hrun, hpre, _⟩ := run_services_step env j service rest hflag (hparent j)
    constructor
    · rw [run_services_step_schedule env j service rest hflag (hparent j), (ih (j + 1)).1]
      rfl
    · rw [hrun, launched_append, hpre, (ih (j + 1)).2]
      rfl

theorem shutdown_system_schedule (kill_result : Int → Int) :
    schedule (shutdown_system kill_result).2 = [] := by
  unfold shutdown_system send_signal_to_all
  by_cases h1 : kill_result SIGTERM < 0 <;> by_cases h2 : kill_result SIGKILL < 0 <;>
    simp [h1, h2, schedule]

/-- The end of `main` neither launches nor reaps. -/
theorem main_shutdown_schedule (env : RunEnv) (runlevel : Int) (count : Nat) :
    schedule (main_shutdown env runlevel count).2 = [] := by
  have h0 := shutdown_system_schedule (env.kill 0)
  have h1 := shutdown_system_schedule (env.kill 1)
  have hret : ∀ k, ¬ (shutdown_system k).1 < 0 := by
    intro k
    simp [shutdown_system]
  have hnil : schedule [] = [] := rfl
  have e1 : schedule [.log_message "[INFO] Runlevel %d initialization complete"] = [] := by
    decide
  have e2 : schedule
      [.log_message "[INFO] Runlevel %d detected, initiating shutdown sequence"] = [] := by
    decide
  have e3 : schedule [.log_message "[INFO] Performing graceful shutdown due to signal"] = [] := by
    decide
  unfold main_shutdown
  by_cases ht : runlevel = 0 ∨ runlevel = 6 <;>
    cases hf : shutdown_requested env count <;>
    simp only [ht, hret, if_true, if_false, Bool.false_eq_true, schedule_append, h0, h1, e1, e2,
      e3, hnil, List.append_nil, List.nil_append]

/-- One iteration of the loop in the orchestrator, with the flag not set: its trace is
that of the loop over the one entry, in front of the trace of the later iterations. -/
theorem run_services_cons (env : RunEnv) (i : Nat) (service : service_info_t)
    (rest : List service_info_t) (hflag : shutdown_requested env i = false)
    (hparent : env.fork i ≠ 0) :
    run_services env i (service :: rest) =
      ((run_services env (i + 1) rest).1,
        (run_services env i [service]).2 ++ (run_services env (i + 1) rest).2) := by
  rw [run_services, run_services]
  simp only [hflag, Bool.false_eq_true, if_false]
  by_cases hneg : env.fork i < 0
  · simp [execute_service, hneg, run_services]
  · simp only [execute_service, hneg, hparent, if_false]
    by_cases hwait : (wait_for_service (env.waitpid i (env.fork i)) (env.fork i)
        env.exit_status0).1 < 0
    · simp [hwait, run_services]
    · simp [hwait, run_services]

/-- In the child that the `fork` of the iteration of entry `k` creates, the loop is left
for good in that iteration: after the actions of the orchestrator for the entries before,
the child logs the start, returns from `fork` and calls `execl` on the full path of that
entry. -/
theorem run_services_child (env : RunEnv) (hsignal : env.signal = none)
    (hparent : ∀ m, env.fork m ≠ 0) (j k : Nat) (rest : List service_info_t)
    (service : service_info_t) (hservice : rest[k]? = some service) :
    run_services (child_env env (j + k)) j rest =
      (false, (run_services env j (rest.take k)).2 ++
        [.log_service_start service.name, .fork, .execl service.full_path]) := by
  induction rest generalizing j k with
  | nil => simp at hservice
  | cons first rest ih =>
    have hflagc : ∀ m, shutdown_requested (child_env env (j + k)) m = false := by
      intro m
      simp [shutdown_requested, child_env, hsignal]
    cases k with
    | zero =>
      simp only [List.getElem?_cons_zero, Option.some.injEq] at hservice
      subst hservice
      simp [run_services, shutdown_requested, hsignal, child_env, execute_service]
    | succ k =>
      simp only [List.getElem?_cons_succ] at hservice
      have hne : j ≠ j + (k + 1) := by omega
      have hforkc : (child_env env (j + (k + 1))).fork j = env.fork j := by
        simp [child_env, hne]
      have hone : run_services (child_env env (j + (k + 1))) j [first] =
          run_services env j [first] := by
        have hwaitc : (child_env env (j + (k + 1))).waitpid = env.waitpid := rfl
        have hstatc : (child_env env (j + (k + 1))).exit_status0 = env.exit_status0 := rfl
        simp only [run_services, hflagc, shutdown_requested_never env hsignal, hforkc, hwaitc,
          hstatc]
      have hidx : j + (k + 1) = (j + 1) + k := by omega
      rw [run_services_cons _ j first rest (hflagc j) (by rw [hforkc]; exact hparent j), hone]
      rw [hidx, ih (j + 1) k hservice, List.take_succ_cons,
        run_services_cons env j first (rest.take k) (shutdown_requested_never env hsignal j)
          (hparent j)]
      simp

/-- C12: when the flag is never set, whatever `fork` and `waitpid` return in the
orchestrator, the service loop runs to the end of the catalog; its launch and reap actions
are, entry by entry in catalog order, one launch followed by one `waitpid` on the pid of
that child when the launch succeeded and by none when it failed, each before the launch
of the next entry; a failed launch or a failed wait does not stop the loop. The whole run
of `main` has these launch and reap actions and no other. Each launch runs the script of
its entry: in the child that the `fork` for entry `i` creates, the orchestrator's actions
for the entries before `i` are followed by `execl` of the shell on the full path of entry
`i`, and the child never comes back to the loop. -/
theorem run_services_one_at_a_time (env : RunEnv) (catalog : List service_info_t)
    (hsignal : env.signal = none) (hparent : ∀ k, env.fork k ≠ 0) :
    (run_services env 0 catalog).1 = true ∧
    schedule (run_services env 0 catalog).2 = sequential_schedule env 0 catalog ∧
    launched (run_services env 0 catalog).2 = catalog.map service_info_t.name ∧
    (run_services env 0 catalog).2.count .fork = catalog.length ∧
    (∀ (runlevel : Int) (capacity : Nat), 0 ≤ runlevel →
      schedule (main env runlevel (0, { services := catalog, capacity := capacity })).2 =
        sequential_schedule env 0 catalog) ∧
    (∀ (i : Nat) (service : service_info_t), catalog[i]? = some service →
      run_services (child_env env i) 0 catalog =
        (false, (run_services env 0 (catalog.take i)).2 ++
          [.log_service_start service.name, .fork, .execl service.full_path])) := by
  have hseq := run_services_sequential env hsignal hparent 0 catalog
  have halive := run_services_alive env hparent 0 catalog
  refine ⟨halive, hseq.1, hseq.2, ?_, ?_, ?_⟩
  · have hcount : ∀ (j : Nat) (rest : List service_info_t),
        (sequential_schedule env j rest).count .fork = rest.length := by
      intro j rest
      induction rest generalizing j with
      | nil => simp [sequential_schedule]
      | cons service rest ih =>
        by_cases hpos : 0 < env.fork j
        · simp [sequential_schedule, hpos, List.count_cons, ih (j + 1)]
        · simp [sequential_schedule, hpos, List.count_cons, ih (j + 1)]
    have hfilter : ∀ trace : List Event, (schedule trace).count .fork = trace.count .fork := by
      intro trace
      unfold schedule
      rw [List.count_filter]
      rfl
    rw [← hfilter, hseq.1, hcount]
  · intro runlevel capacity hrunlevel
    have hr : ¬ runlevel < 0 := by omega
    have hmain : (main env runlevel (0, { services := catalog, capacity := capacity })).2 =
        (run_services env 0 catalog).2 ++
          (main_shutdown env runlevel catalog.length).2 := by
      simp [main, hr, halive, service_list_t.count]
    rw [hmain, schedule_append, hseq.1, main_shutdown_schedule, List.append_nil]
  · intro i service hservice
    have h := run_services_child env hsignal hparent 0 i catalog service hservice
    rw [Nat.zero_add] at h
    exact h

/-- C12 (witness): the catalog `[alpha, beta, gamma]`, where the launch of `beta` fails and
the wait for `gamma` fails: `alpha` is launched and waited for, `beta` is launched and not
waited for, `gamma` is launched and waited for; the child forked for `gamma` runs the
shell on `/etc/inits.d/1a-gamma`. -/
theorem run_services_one_at_a_time_witness :
    bumpy_run.signal = none ∧ (∀ k, bumpy_run.fork k ≠ 0) ∧
    (run_services bumpy_run 0 [alpha_entry, beta_entry, gamma_entry]).1 = true ∧
    schedule (run_services bumpy_run 0 [alpha_entry, beta_entry, gamma_entry]).2 =
      [.log_service_start "alpha".toList, .fork, .waitpid 100,
       .log_service_start "beta".toList, .fork,
       .log_service_start "gamma".toList, .fork, .waitpid 102] ∧
    run_services (child_env bumpy_run 2) 0 [alpha_entry, beta_entry, gamma_entry] =
      (false,
        [.log_service_start "alpha".toList, .fork, .waitpid 100,
         .log_service_complete "alpha".toList 0,
         .log_service_start "beta".toList, .fork,
         .log_message "[ERROR] Failed to fork process for service %s",
         .log_message "[ERROR] Failed to execute service %s",
         .log_service_start "gamma".toList, .fork,
         .execl "/etc/inits.d/1a-gamma".toList]) :=
  have hparent : ∀ k, bumpy_run.fork k ≠ 0 := by
    intro k
    simp only [bumpy_run]
    split <;> omega
  have h := run_services_one_at_a_time bumpy_run [alpha_entry, beta_entry, gamma_entry] rfl
    hparent
  ⟨rfl, hparent, h.1, h.2.1.trans (by decide),
    (h.2.2.2.2.2 2 gamma_entry rfl).trans (by decide)⟩

/-! ## Claims about the display name and about repeated digits -/

/-- C14 (counterexample): in `3a3b-x` two pairs carry the digit 3; at runlevel 3 the parser
returns 1 and stores the key `b` of the second pair, not the key `a` of the first. -/
theorem parse_service_filename_second_pair_wins :
    MatchesGrammar "3a3b-x".toList ∧
    "3a3b-x".toList = encodeGroups [('3', ['a']), ('3', ['b'])] ++ '-' :: ['x'] ∧
    (parse_service_filename "3a3b-x".toList 3 blank_info).1 = 1 ∧
    service_info_t.ordering_prefix (parse_service_filename "3a3b-x".toList 3 blank_info).2
      = ['b'] ∧
    service_info_t.ordering_prefix (parse_service_filename "3a3b-x".toList 3 blank_info).2
      ≠ ['a'] := by
  have htext : "3a3b-x".toList = encodeGroups [('3', ['a']), ('3', ['b'])] ++ '-' :: ['x'] := by
    decide
  have hv : ∀ g ∈ [(('3', ['a']) : Group), ('3', ['b'])], Group.valid g = true := by decide
  have hscan : scanGroups 3 [(('3', ['a']) : Group), ('3', ['b'])] (0, []) = (1, ['b']) := by
    decide
  refine ⟨⟨_, _, by simp, hv, by simp, htext⟩, htext, ?_, ?_, ?_⟩
  · rw [htext, parse_service_filename_encode _ _ _ _ hv (by simp), hscan]
    simp
  · rw [htext, parse_service_filename_encode _ _ _ _ hv (by simp), hscan]
    simp [strncpy]
  · rw [htext, parse_service_filename_encode _ _ _ _ hv (by simp), hscan]
    simp [strncpy]

/-- C14 (as amended): on a grammar-valid filename in which two or more pairs carry the
digit of the target runlevel, the parser returns 1 and the stored ordering key is that of
the last (rightmost) such pair, cut to its first 63 characters: last match wins. -/
theorem parse_service_filename_last_match_wins (pre mid post : List Group) (g1 g2 : Group)
    (name : List Char) (r : Int) (info : service_info_t)
    (hvalid : ∀ g ∈ pre ++ g1 :: (mid ++ g2 :: post), g.valid = true) (hname : name ≠ [])
    (hfirst : digitValue g1.1 = r) (hsecond : digitValue g2.1 = r)
    (hlast : ∀ g ∈ post, digitValue g.1 ≠ r) :
    MatchesGrammar (encodeGroups (pre ++ g1 :: (mid ++ g2 :: post)) ++ '-' :: name) ∧
    (parse_service_filename
      (encodeGroups (pre ++ g1 :: (mid ++ g2 :: post)) ++ '-' :: name) r info).1 = 1 ∧
    service_info_t.ordering_prefix (parse_service_filename
      (encodeGroups (pre ++ g1 :: (mid ++ g2 :: post)) ++ '-' :: name) r info).2
        = g2.2.take 63 := by
  have _ := hfirst
  have hsplit : pre ++ g1 :: (mid ++ g2 :: post) = (pre ++ g1 :: mid) ++ g2 :: post := by simp
  have hscan : scanGroups r (pre ++ g1 :: (mid ++ g2 :: post)) (0, []) = (1, g2.2.take 63) := by
    rw [hsplit]
    exact scanGroups_last_match r (pre ++ g1 :: mid) post g2 (0, []) hsecond hlast
  refine ⟨⟨_, name, by simp, hvalid, hname, rfl⟩, ?_, ?_⟩
  · rw [parse_service_filename_encode _ _ _ _ hvalid hname, hscan]
    simp
  · rw [parse_service_filename_encode _ _ _ _ hvalid hname, hscan]
    simp [strncpy, List.take_take]

/-- C14 (witness): `3a1c3b-net` at runlevel 3 has the key `b`. -/
theorem parse_service_filename_last_match_wins_witness :
    (∀ g ∈ ([] : List Group) ++ ('3', ['a']) :: ([('1', ['c'])] ++ ('3', ['b']) :: []),
      Group.valid g = true) ∧
    "net".toList ≠ [] ∧ digitValue '3' = 3 ∧
    (parse_service_filename
      (encodeGroups ([] ++ ('3', ['a']) :: ([('1', ['c'])] ++ ('3', ['b']) :: []))
        ++ '-' :: "net".toList) 3 blank_info).1 = 1 ∧
    service_info_t.ordering_prefix (parse_service_filename
      (encodeGroups ([] ++ ('3', ['a']) :: ([('1', ['c'])] ++ ('3', ['b']) :: []))
        ++ '-' :: "net".toList) 3 blank_info).2 = List.take 63 ['b'] :=
  have h := parse_service_filename_last_match_wins [] [('1', ['c'])] [] ('3', ['a'])
    ('3', ['b']) "net".toList 3 blank_info (by decide) (by decide) (by decide) (by decide)
    (by decide)
  ⟨by decide, by decide, by decide, h.2.1, h.2.2⟩

end Inits
